import Mathlib

/-!
Verification of the indexing and query-resolution core of the `DataPack`
annotation store (`nlp/pipeline/data/data_pack.py`).

The Python source is shallowly embedded: Python objects become Lean
structures, Python `dict`/`defaultdict` values become Lean functions with an
explicit default, Python sets of ids become `List String` (membership is all
that is ever observed), stateful methods become state-passing functions, and
code paths that can raise become `Except String` values.  Python `isinstance`
checks against the caller-supplied `outer_type` / `inner_type` classes are
embedded as boolean membership predicates together with the subclass facts
(`includesLink`, `includesGroup`, ...) that the source computes with
`issubclass`.

The entry classes themselves (`Span`, `Annotation`, `Link`, `Group`, `Entry`)
live in `base_ontology.py`, which is not part of this repository's sources;
their fields and their variant-specific equality are modelled from the spec
(§2, §3, §4.1).
-/

set_option autoImplicit false

namespace DataPackProof


/-- Modelled from the spec: a half-open integer text range `[begin, end)`
from the external `base_ontology` module. -/
structure Span where
  begin : Int
  end_ : Int
deriving DecidableEq, Repr

/-- Modelled from the spec: an Annotation entry (`tid`, concrete class name
`ty`, producing `component`, `span`). -/
structure Annotation where
  tid : String
  ty : String
  component : String
  span : Span
deriving DecidableEq, Repr

/-- Modelled from the spec: a Link entry; `parent` and `child` are tids. -/
structure Link where
  tid : String
  ty : String
  component : String
  parent : String
  child : String
deriving DecidableEq, Repr

/-- Modelled from the spec: a Group entry; `members` are tids. -/
structure Group where
  tid : String
  ty : String
  component : String
  members : List String
deriving DecidableEq, Repr

/-- A stored entry.  `entryBase` models a default-constructed base `Entry()`
object, which is what Python's `defaultdict(Entry)` produces on a missing
key. -/
inductive Entry where
  | annE (a : Annotation)
  | linkE (l : Link)
  | groupE (g : Group)
  | entryBase
deriving DecidableEq, Repr

/-- `tid` attribute of a stored entry (a default-constructed `Entry()` has no
assigned id; it never reaches the indexes in the verified scenarios). -/
def Entry.tid : Entry → String
  | .annE a => a.tid
  | .linkE l => l.tid
  | .groupE g => g.tid
  | .entryBase => ""

/-- `__class__.__name__` of a stored entry. -/
def Entry.name : Entry → String
  | .annE a => a.ty
  | .linkE l => l.ty
  | .groupE g => g.ty
  | .entryBase => "Entry"

/-- `component` attribute of a stored entry. -/
def Entry.component : Entry → String
  | .annE a => a.component
  | .linkE l => l.component
  | .groupE g => g.component
  | .entryBase => ""

/-- `span` attribute: only Annotation entries have one; `none` models the
`AttributeError` that a `.span` access raises on other objects. -/
def spanOf : Entry → Option Span
  | .annE a => some a.span
  | _ => none

/-- Span order used by the sorted Annotation collection:
lexicographic on `(begin, end)`. -/
def lexLe (s t : Span) : Prop :=
  s.begin < t.begin ∨ (s.begin = t.begin ∧ s.end_ ≤ t.end_)

instance (s t : Span) : Decidable (lexLe s t) :=
  inferInstanceAs (Decidable (_ ∨ _))

/-- A well-formed text span: `begin ≤ end`. -/
def wfSpan (s : Span) : Prop := s.begin ≤ s.end_

instance (s : Span) : Decidable (wfSpan s) := inferInstanceAs (Decidable (_ ≤ _))

/-- Containment of span `inner` in span `outer`
(`inner.begin >= outer.begin and inner.end <= outer.end`). -/
def inSpanP (inner outer : Span) : Prop :=
  inner.begin ≥ outer.begin ∧ inner.end_ ≤ outer.end_

instance (s t : Span) : Decidable (inSpanP s t) := inferInstanceAs (Decidable (_ ∧ _))

/-- Span overlap, as computed by `DataIndex._have_overlap`. -/
def overlapP (s t : Span) : Prop :=
  ¬ (s.begin ≥ t.end_ ∨ s.end_ ≤ t.begin)

instance (s t : Span) : Decidable (overlapP s t) := inferInstanceAs (Decidable (¬ _))

/-- `DataIndex._have_overlap(entry1, entry2)` on two annotations. -/
def have_overlap (entry1 entry2 : Annotation) : Bool :=
  ! decide (entry1.span.begin ≥ entry2.span.end_ ∨ entry1.span.end_ ≤ entry2.span.begin)

/-- The member loop of `DataIndex._in_span` for Group entries: starting from
the sentinels `inner_begin = inner_end = -1`, per member it resets
`inner_begin` when it equals `-1`, then takes `min`/`max` with the member's
span.  A member that does not resolve to an Annotation raises
(`None.span` / missing `.span` attribute). -/
def groupBoundsLoop (entry_index : String → Option Entry) :
    List String → Int → Int → Except String (Int × Int)
  | [], inner_begin, inner_end => .ok (inner_begin, inner_end)
  | m_id :: rest, inner_begin, inner_end =>
    match (entry_index m_id).bind spanOf with
    | some s =>
      let b0 := if inner_begin = -1 then s.begin else inner_begin
      groupBoundsLoop entry_index rest (min b0 s.begin) (max inner_end s.end_)
    | none => .error "AttributeError: span"

/-- `DataIndex._in_span(inner_entry, span)`: Annotations by their own span,
Links by the envelope of parent and child, Groups by the member-loop bounds;
a base `Entry` raises `ValueError`. -/
def inSpanE (entry_index : String → Option Entry) (inner_entry : Entry)
    (span : Span) : Except String Bool :=
  match inner_entry with
  | .annE a =>
    .ok (decide (a.span.begin ≥ span.begin ∧ a.span.end_ ≤ span.end_))
  | .linkE l =>
    match (entry_index l.child).bind spanOf, (entry_index l.parent).bind spanOf with
    | some cs, some ps =>
      .ok (decide (min cs.begin ps.begin ≥ span.begin ∧ max cs.end_ ps.end_ ≤ span.end_))
    | _, _ => .error "AttributeError: span"
  | .groupE g => do
    let (inner_begin, inner_end) ← groupBoundsLoop entry_index g.members (-1) (-1)
    .ok (decide (inner_begin ≥ span.begin ∧ inner_end ≤ span.end_))
  | .entryBase => .error "ValueError: invalid entry type"

/-- The index state of `DataIndex`.  The two sub-dicts of `link_index`
("child_index" / "parent_index") are flattened into two fields; every
`defaultdict(set)` becomes a function defaulting to `[]`, the plain dicts
become `Option`-valued functions. -/
structure DataIndex where
  entry_index : String → Option Entry
  type_index : String → List String
  component_index : String → List String
  group_index : String → List String
  link_child_index : String → List String
  link_parent_index : String → List String
  coverage_index : String → Option (String → List String)
  group_index_switch : Bool
  link_index_switch : Bool
  coverage_index_switch : String → Bool

/-- A fresh `DataIndex` as produced by `DataIndex.__init__`. -/
def emptyDataIndex : DataIndex where
  entry_index := fun _ => none
  type_index := fun _ => []
  component_index := fun _ => []
  group_index := fun _ => []
  link_child_index := fun _ => []
  link_parent_index := fun _ => []
  coverage_index := fun _ => none
  group_index_switch := false
  link_index_switch := false
  coverage_index_switch := fun _ => false

/-- One iteration of the loop in `DataIndex.update_basic_index`. -/
def basicIndexStep (acc : DataIndex) (entry : Entry) : DataIndex :=
  { acc with
    entry_index := fun t => if t = entry.tid then some entry else acc.entry_index t
    type_index := fun n =>
      if n = entry.name then List.insert entry.tid (acc.type_index n) else acc.type_index n
    component_index := fun c =>
      if c = entry.component then List.insert entry.tid (acc.component_index c)
      else acc.component_index c }

/-- `DataIndex.update_basic_index(entries)`. -/
def update_basic_index (idx : DataIndex) (entries : List Entry) : DataIndex :=
  entries.foldl basicIndexStep idx

/-- One iteration of the loop in `DataIndex.update_link_index`. -/
def linkIndexStep (acc : DataIndex) (link : Link) : DataIndex :=
  { acc with
    link_child_index := fun t =>
      if t = link.child then List.insert link.tid (acc.link_child_index t)
      else acc.link_child_index t
    link_parent_index := fun t =>
      if t = link.parent then List.insert link.tid (acc.link_parent_index t)
      else acc.link_parent_index t }

/-- `DataIndex.update_link_index(links)`: flips the switch, then adds every
link's tid under its child and parent keys. -/
def update_link_index (idx : DataIndex) (links : List Link) : DataIndex :=
  links.foldl linkIndexStep { idx with link_index_switch := true }

/-- One member iteration inside `DataIndex.update_group_index`. -/
def memberIndexStep (tid : String) (acc2 : DataIndex) (member : String) : DataIndex :=
  { acc2 with
    group_index := fun t =>
      if t = member then List.insert tid (acc2.group_index t)
      else acc2.group_index t }

/-- The inner member loop of `DataIndex.update_group_index`. -/
def groupIndexStep (acc : DataIndex) (group : Group) : DataIndex :=
  group.members.foldl (memberIndexStep group.tid) acc

/-- `DataIndex.update_group_index(groups)`. -/
def update_group_index (idx : DataIndex) (groups : List Group) : DataIndex :=
  groups.foldl groupIndexStep { idx with group_index_switch := true }

/-- A Python entry class as supplied to `build_coverage_index` /
`get_coverage_index`: its `__name__`, its membership test
(`isinstance(e, cls)`), and the subclass facts the source computes
(`cls is Entry or issubclass(cls, Link)`, same for `Group`, and
`issubclass(cls, Annotation)` / `issubclass(cls, (Link, Group))`). -/
structure EntryType where
  name : String
  mem : Entry → Bool
  includesLink : Bool
  includesGroup : Bool
  subAnnotation : Bool
  subLinkOrGroup : Bool

/-- The context that `add_covered_entries` closes over: the relevant
`DataIndex` maps plus the inner-type data. -/
structure CoverCtx where
  entry_index : String → Option Entry
  link_child_index : String → List String
  link_parent_index : String → List String
  group_index : String → List String
  inner_pred : Entry → Bool
  index_link_as_inner : Bool
  index_group_as_inner : Bool

/-- The coverage-scan context drawn from a `DataIndex` for a given inner
type. -/
def coverCtxOf (idx : DataIndex) (inner_type : EntryType) : CoverCtx :=
  ⟨idx.entry_index, idx.link_child_index, idx.link_parent_index, idx.group_index,
    inner_type.mem, inner_type.includesLink, inner_type.includesGroup⟩

/-- `self.entry_index[t]` bracket access on the `defaultdict(Entry)`:
a missing key yields a default-constructed base `Entry`. -/
def bracketEntry (C : CoverCtx) (t : String) : Entry :=
  (C.entry_index t).getD .entryBase

/-- The probe loops inside `add_covered_entries`: for each candidate id from
a structural index, skip it unless `isinstance(_, inner_type)`, then add it
when `_in_span` holds.  Used for the chained child/parent link ids and for
the group ids. -/
def probeIds (C : CoverCtx) (outer : Annotation) :
    List String → List String → Except String (List String)
  | [], acc => .ok acc
  | id :: rest, acc =>
    let e := bracketEntry C id
    if C.inner_pred e then do
      let b ← inSpanE C.entry_index e outer.span
      probeIds C outer rest (if b then List.insert id acc else acc)
    else
      probeIds C outer rest acc

/-- The body of `add_covered_entries` for a candidate that lies inside
`outer.span`: contribute the candidate's own tid when it is of the inner
type, then the probed links (child index chained with parent index) when the
inner type can include links, then the probed groups likewise. -/
def coveredStep (C : CoverCtx) (outer inner : Annotation) (acc : List String) :
    Except String (List String) := do
  let acc := if C.inner_pred (.annE inner) then List.insert inner.tid acc else acc
  let acc ← (if C.index_link_as_inner then
      probeIds C outer
        (C.link_child_index inner.tid ++ C.link_parent_index inner.tid) acc
    else .ok acc)
  let acc ← (if C.index_group_as_inner then
      probeIds C outer (C.group_index inner.tid) acc
    else .ok acc)
  .ok acc

/-- `add_covered_entries(outer, stop, step)`: walk the candidate annotations
in scan order; a candidate inside `outer.span` contributes via `coveredStep`;
a candidate that neither is inside nor overlaps breaks the scan. -/
def add_covered_entries (C : CoverCtx) (outer : Annotation) :
    List Annotation → List String → Except String (List String)
  | [], acc => .ok acc
  | inner :: rest, acc => do
    let b ← inSpanE C.entry_index (.annE inner) outer.span
    if b then do
      let acc ← coveredStep C outer inner acc
      add_covered_entries C outer rest acc
    else if have_overlap outer inner then
      add_covered_entries C outer rest acc
    else
      .ok acc

/-- The outer loop `for i in range(len(annotations))` of
`build_coverage_index`, as a zipper: `revPre` is the already-passed prefix in
reverse, so at position `i` the backward candidates
`annotations[i], annotations[i-1], ..., annotations[0]` are `a :: revPre` and
the forward candidates `annotations[i], ..., annotations[-1]` are
`a :: rest`.  Both directional scans feed the set stored under
`outer.tid`. -/
def buildLoop (C : CoverCtx) (outer_pred : Annotation → Bool) :
    List Annotation → List Annotation → (String → List String) →
    Except String (String → List String)
  | _, [], cov => .ok cov
  | revPre, a :: rest, cov =>
    if outer_pred a then do
      let s ← add_covered_entries C a (a :: revPre) (cov a.tid)
      let s ← add_covered_entries C a (a :: rest) s
      buildLoop C outer_pred (a :: revPre) rest (fun t => if t = a.tid then s else cov t)
    else
      buildLoop C outer_pred (a :: revPre) rest cov

/-- The coverage scan of `build_coverage_index` over the full annotation
list, starting from the (possibly pre-existing) map `cov`. -/
def buildCov (C : CoverCtx) (outer_pred : Annotation → Bool)
    (annotations : List Annotation) (cov : String → List String) :
    Except String (String → List String) :=
  buildLoop C outer_pred [] annotations cov

/-- The first activation stage of `build_coverage_index`: when the inner
type can include Link entries and the link index is inactive, the raw links
are required (`ValueError` when absent) and indexed. -/
def linkStage (idx : DataIndex) (links : Option (List Link))
    (inner_type : EntryType) : Except String DataIndex :=
  if inner_type.includesLink then
    if !idx.link_index_switch then
      match links with
      | none => .error "ValueError: links"
      | some ls => .ok (update_link_index idx ls)
    else .ok idx
  else .ok idx

/-- The second activation stage of `build_coverage_index`, for Group
entries. -/
def groupStage (idx : DataIndex) (groups : Option (List Group))
    (inner_type : EntryType) : Except String DataIndex :=
  if inner_type.includesGroup then
    if !idx.group_index_switch then
      match groups with
      | none => .error "ValueError: groups"
      | some gs => .ok (update_group_index idx gs)
    else .ok idx
  else .ok idx

/-- `DataIndex.build_coverage_index(annotations, links, groups, outer_type,
inner_type)` for valid (already type-checked) `outer_type` / `inner_type`:
activate the link/group indexes if the inner type needs them (raising
`ValueError` when the raw collection argument is `None`), then run the scan
and store the result under `"outer-to-inner"`. -/
def build_coverage_index (idx : DataIndex) (annotations : List Annotation)
    (links : Option (List Link)) (groups : Option (List Group))
    (outer_type inner_type : EntryType) : Except String DataIndex := do
  let dict_name := outer_type.name ++ "-to-" ++ inner_type.name
  let idx ← linkStage idx links inner_type
  let idx ← groupStage idx groups inner_type
  let C := coverCtxOf idx inner_type
  let cov0 := (idx.coverage_index dict_name).getD (fun _ => [])
  let cov ← buildCov C (fun a => outer_type.mem (.annE a)) annotations cov0
  .ok { idx with
    coverage_index := fun n => if n = dict_name then some cov else idx.coverage_index n
    coverage_index_switch := fun n =>
      if n = dict_name then true else idx.coverage_index_switch n }

/-- The cache-resolution chain of `DataIndex.get_coverage_index`, tried from
the exact name down to `"Annotation-to-Entry"`; `none` means no cached tier
answered and the exact index must be built. -/
def getCoverageIndexCached (idx : DataIndex) (outer_name inner_name : String) :
    Option (String → List String) :=
  if idx.coverage_index_switch (outer_name ++ "-to-" ++ inner_name) then
    idx.coverage_index (outer_name ++ "-to-" ++ inner_name)
  else if idx.coverage_index_switch ("Annotation" ++ "-to-" ++ inner_name) then
    idx.coverage_index ("Annotation" ++ "-to-" ++ inner_name)
  else if idx.coverage_index_switch (outer_name ++ "-to-" ++ "Entry") then
    idx.coverage_index (outer_name ++ "-to-" ++ "Entry")
  else if idx.coverage_index_switch ("Annotation" ++ "-to-" ++ "Entry") then
    idx.coverage_index ("Annotation" ++ "-to-" ++ "Entry")
  else
    none

/-- `InternalMeta`: per-entry-type-name id counter, field provenance, and
default component. -/
structure InternalMeta where
  id_counter : Nat
  fields_created : String → Option (List String)
  default_component : Option String

/-- `InternalMeta.__init__`, the `defaultdict(InternalMeta)` default. -/
def initInternalMeta : InternalMeta where
  id_counter := 0
  fields_created := fun _ => none
  default_component := none

/-- The `DataPack` store: sorted annotations, insertion-ordered links and
groups, the index, and the per-type-name internal metas. -/
structure DataPack where
  annotations : List Annotation
  links : List Link
  groups : List Group
  index : DataIndex
  internal_metas : String → Option InternalMeta

/-- `DataPack.__init__`. -/
def emptyDataPack : DataPack where
  annotations := []
  links := []
  groups := []
  index := emptyDataIndex
  internal_metas := fun _ => none

/-- `defaultdict` read of an internal meta record. -/
def getMeta (metas : String → Option InternalMeta) (name : String) : InternalMeta :=
  (metas name).getD initInternalMeta

/-- An entry to be admitted by `add_entry`: its tid may still be unassigned
(`entry.tid is None`). -/
inductive NewEntry where
  | annNew (tid : Option String) (ty component : String) (span : Span)
  | linkNew (tid : Option String) (ty component : String) (parent child : String)
  | groupNew (tid : Option String) (ty component : String) (members : List String)

/-- Modelled from the spec: `Annotation.__eq__` from `base_ontology`
(equal by span, concrete type and component). -/
def annEq (a : Annotation) (ty component : String) (span : Span) : Bool :=
  decide (a.ty = ty ∧ a.component = component ∧ a.span = span)

/-- Modelled from the spec: `Link.__eq__` (equal by parent, child and
concrete type). -/
def linkEq (l : Link) (ty parent child : String) : Bool :=
  decide (l.ty = ty ∧ l.parent = parent ∧ l.child = child)

/-- Set equality of two member-id lists. -/
def memberSetEq (ms1 ms2 : List String) : Bool :=
  ms1.all (fun m => ms2.contains m) && ms2.all (fun m => ms1.contains m)

/-- Modelled from the spec: `Group.__eq__` (equal by member set and concrete
type). -/
def groupEq (g : Group) (ty : String) (members : List String) : Bool :=
  decide (g.ty = ty) && memberSetEq g.members members

/-- `SortedList.add`: insert after all elements whose span key is `≤` the new
element's span key (`bisect_right` semantics). -/
def sortedInsert (a : Annotation) : List Annotation → List Annotation
  | [] => [a]
  | b :: rest =>
    if lexLe b.span a.span then b :: sortedInsert a rest else a :: b :: rest

/-- Bump (or lazily create) the id counter record of a type name, as the
unconditional `self.internal_metas[name].id_counter += 1`. -/
def bumpCounter (metas : String → Option InternalMeta) (name : String) :
    String → Option InternalMeta :=
  let meta := getMeta metas name
  fun n => if n = name then some { meta with id_counter := meta.id_counter + 1 } else metas n

/-- `DataPack.add_entry(entry)`: if an equal entry is already stored, return
its tid and change nothing; otherwise assign the per-type-name counter as tid
when none was supplied, store the entry, bump the counter, update the basic
index, and update the structural indexes only when their switch is on. -/
def add_entry (pack : DataPack) (entry : NewEntry) : DataPack × String :=
  match entry with
  | .annNew tid0 ty component span =>
    match pack.annotations.find? (fun a => annEq a ty component span) with
    | some a => (pack, a.tid)
    | none =>
      let tid := tid0.getD (toString (getMeta pack.internal_metas ty).id_counter)
      let a : Annotation := ⟨tid, ty, component, span⟩
      ({ pack with
          annotations := sortedInsert a pack.annotations
          internal_metas := bumpCounter pack.internal_metas ty
          index := update_basic_index pack.index [.annE a] }, tid)
  | .linkNew tid0 ty component parent child =>
    match pack.links.find? (fun l => linkEq l ty parent child) with
    | some l => (pack, l.tid)
    | none =>
      let tid := tid0.getD (toString (getMeta pack.internal_metas ty).id_counter)
      let l : Link := ⟨tid, ty, component, parent, child⟩
      let idx := update_basic_index pack.index [.linkE l]
      let idx := if idx.link_index_switch then update_link_index idx [l] else idx
      ({ pack with
          links := pack.links ++ [l]
          internal_metas := bumpCounter pack.internal_metas ty
          index := idx }, tid)
  | .groupNew tid0 ty component members =>
    match pack.groups.find? (fun g => groupEq g ty members) with
    | some g => (pack, g.tid)
    | none =>
      let tid := tid0.getD (toString (getMeta pack.internal_metas ty).id_counter)
      let g : Group := ⟨tid, ty, component, members⟩
      let idx := update_basic_index pack.index [.groupE g]
      let idx := if idx.group_index_switch then update_group_index idx [g] else idx
      ({ pack with
          groups := pack.groups ++ [g]
          internal_metas := bumpCounter pack.internal_metas ty
          index := idx }, tid)

/-- `DataPack.record_fields(fields, component, entry_type)`: set the default
component only when `entry_type` has no internal meta record at all, then add
`fields` plus `"tid"` to the component's recorded field set. -/
def record_fields (pack : DataPack) (fields : List String) (component : String)
    (entry_type : String) : DataPack :=
  let metas := pack.internal_metas
  let metas :=
    if (metas entry_type).isNone then
      fun n =>
        if n = entry_type then
          some { initInternalMeta with default_component := some component }
        else metas n
    else metas
  let meta := (metas entry_type).getD initInternalMeta
  let created := (meta.fields_created component).getD []
  let created := (fields ++ ["tid"]).foldl (fun s f => List.insert f s) created
  { pack with
    internal_metas := fun n =>
      if n = entry_type then
        some { meta with
          fields_created := fun c =>
            if c = component then some created else meta.fields_created c }
      else metas n }

/-- `DataIndex.get_coverage_index(outer_type, inner_type)` at the pack level:
a cached tier answers directly, else the exact index is built (tier 5) from
the pack's own collections. -/
def get_coverage_index (pack : DataPack) (outer_type inner_type : EntryType) :
    Except String ((String → List String) × DataPack) :=
  match getCoverageIndexCached pack.index outer_type.name inner_type.name with
  | some m => .ok (m, pack)
  | none => do
    let idx ← build_coverage_index pack.index pack.annotations
      (some pack.links) (some pack.groups) outer_type inner_type
    match idx.coverage_index (outer_type.name ++ "-to-" ++ inner_type.name) with
    | some m => .ok (m, { pack with index := idx })
    | none => .error "KeyError"

/-- `SortedList.bisect(Annotation('', b, -1))`: the number of stored
annotations whose span key is `≤ (b, -1)`. -/
def bisect (annotations : List Annotation) (s : Span) : Nat :=
  (annotations.takeWhile (fun a => decide (lexLe a.span s))).length

/-- `DataPack.get_entries(entry_type, range_annotation, component)`:
`sent_end` is read unguardedly from the last stored annotation when no range
is given (an `IndexError` on an empty store), then the id set is intersected
down and the matching entries are produced. -/
def get_entries (pack : DataPack) (entry_type : EntryType)
    (range_type : EntryType) ( range_annotation : Option Annotation)
    (component : Option String) : Except String (List Entry) := do
  let sent_begin := match range_annotation with
    | some r => r.span.begin
    | none => 0
  let sent_end ← (match range_annotation with
    | some r => .ok r.span.end_
    | none =>
      match pack.annotations.getLast? with
      | some a => .ok a.span.end_
      | none => (.error "IndexError: list index out of range" : Except String Int))
  let valid_id := pack.index.type_index entry_type.name
  let valid_id := match component with
    | some c => valid_id.filter (fun t => (pack.index.component_index c).contains t)
    | none => valid_id
  let valid_id ← (match range_annotation with
    | some r => do
      let (c_index, _) ← get_coverage_index pack range_type entry_type
      .ok (valid_id.filter (fun t => (c_index r.tid).contains t))
    | none => .ok valid_id)
  if entry_type.subAnnotation then
    let begin_index := bisect pack.annotations ⟨sent_begin, -1⟩
    let end_index := bisect pack.annotations ⟨sent_end, -1⟩
    .ok ((((pack.annotations.drop begin_index).take (end_index - begin_index)).filter
      (fun a => valid_id.contains a.tid)).map .annE)
  else if entry_type.subLinkOrGroup then
    .ok (valid_id.map (fun t => (pack.index.entry_index t).getD .entryBase))
  else
    .ok []

/-- What `coveredStep` can contribute for candidate `inner`. -/
def StepHit (C : CoverCtx) (outer inner : Annotation) (t : String) : Prop :=
  (C.inner_pred (.annE inner) = true ∧ inner.tid = t) ∨
  (C.index_link_as_inner = true ∧
    t ∈ C.link_child_index inner.tid ++ C.link_parent_index inner.tid ∧
    C.inner_pred (bracketEntry C t) = true ∧
    inSpanE C.entry_index (bracketEntry C t) outer.span = .ok true) ∨
  (C.index_group_as_inner = true ∧ t ∈ C.group_index inner.tid ∧
    C.inner_pred (bracketEntry C t) = true ∧
    inSpanE C.entry_index (bracketEntry C t) outer.span = .ok true)

/-- The ways a directional scan over candidate list `cands` can contribute an
id to `outer`'s coverage set: a `coveredStep` contribution at some contained
candidate. -/
def ScanHitOn (C : CoverCtx) (outer : Annotation) (cands : List Annotation)
    (t : String) : Prop :=
  ∃ a ∈ cands, inSpanP a.span outer.span ∧ StepHit C outer a t

/-! ### The basic entry index as a store lookup -/

/-- All tids of a store's collections, in collection order. -/
def AllTids (anns : List Annotation) (L : List Link) (G : List Group) : List String :=
  anns.map Annotation.tid ++ (L.map Link.tid ++ G.map Group.tid)

/-- The extensional content of `entry_index` over a store whose entries have
pairwise distinct tids: resolve a tid to its entry. -/
def storeLookup (anns : List Annotation) (L : List Link) (G : List Group)
    (t : String) : Option Entry :=
  match anns.find? (fun a => decide (a.tid = t)) with
  | some a => some (.annE a)
  | none =>
    match L.find? (fun l => decide (l.tid = t)) with
    | some l => some (.linkE l)
    | none =>
      match G.find? (fun g => decide (g.tid = t)) with
      | some g => some (.groupE g)
      | none => none

/-! ### Store-level semantics of coverage -/

/-- The store-level meaning of "id `t` is covered by outer annotation `O`":
`t` is the tid of a contained annotation of the inner type, or of an
inner-type link both of whose endpoint annotations are contained, or of an
inner-type group with at least one member all of whose member annotations are
contained. -/
def SemCovStore (anns : List Annotation) (L : List Link) (G : List Group)
    (pred : Entry → Bool) (O : Annotation) (t : String) : Prop :=
  (∃ a ∈ anns, pred (.annE a) = true ∧ inSpanP a.span O.span ∧ a.tid = t) ∨
  (∃ l ∈ L, pred (.linkE l) = true ∧ l.tid = t ∧
    ∃ ca ∈ anns, ∃ pa ∈ anns, ca.tid = l.child ∧ pa.tid = l.parent ∧
      inSpanP ca.span O.span ∧ inSpanP pa.span O.span) ∨
  (∃ g ∈ G, pred (.groupE g) = true ∧ g.tid = t ∧ g.members ≠ [] ∧
    ∀ m ∈ g.members, ∃ a ∈ anns, a.tid = m ∧ inSpanP a.span O.span)

/-! ### Building over a fresh pair of structural indexes -/

/-- The index state reached by `build_coverage_index` after its two
activation stages, when both structural switches were off and both raw
collections were supplied. -/
def freshBuildIndex (idx : DataIndex) (L : List Link) (G : List Group)
    (it : EntryType) : DataIndex :=
  let idxL := if it.includesLink then update_link_index idx L else idx
  if it.includesGroup then update_group_index idxL G else idxL

/-! ### Concrete witness data: text "AB" with one Sentence and two Tokens -/

def w1_anns : List Annotation :=
  [⟨"t0", "Token", "c", ⟨0, 1⟩⟩, ⟨"s0", "Sentence", "c", ⟨0, 2⟩⟩]

def w1_idx : DataIndex :=
  { emptyDataIndex with entry_index := storeLookup w1_anns [] [] }

def tokenType : EntryType where
  name := "Token"
  mem := fun e => match e with | .annE a => a.ty == "Token" | _ => false
  includesLink := false
  includesGroup := false
  subAnnotation := true
  subLinkOrGroup := false

def sentenceType : EntryType where
  name := "Sentence"
  mem := fun e => match e with | .annE a => a.ty == "Sentence" | _ => false
  includesLink := false
  includesGroup := false
  subAnnotation := true
  subLinkOrGroup := false

def w1_idx2 : DataIndex :=
  match build_coverage_index w1_idx w1_anns (some []) (some []) sentenceType tokenType with
  | .ok i => i
  | .error _ => emptyDataIndex

def w1_cov : String → List String :=
  (w1_idx2.coverage_index "Sentence-to-Token").getD (fun _ => [])

def groupType : EntryType where
  name := "Group"
  mem := fun e => match e with | .groupE _ => true | _ => false
  includesLink := false
  includesGroup := true
  subAnnotation := false
  subLinkOrGroup := true

def entryType : EntryType where
  name := "Entry"
  mem := fun _ => true
  includesLink := true
  includesGroup := true
  subAnnotation := false
  subLinkOrGroup := false

/-! ### Counterexample data for C5: an empty-member group -/

def w5_anns : List Annotation := [⟨"a0", "Sentence", "c", ⟨0, 2⟩⟩]

def w5_g : Group := ⟨"g0", "Group", "c", []⟩

def w5_idx : DataIndex :=
  { emptyDataIndex with entry_index := storeLookup w5_anns [] [w5_g] }

def w5_idx2 : DataIndex :=
  match build_coverage_index w5_idx w5_anns (some []) (some [w5_g])
      sentenceType groupType with
  | .ok i => i
  | .error _ => emptyDataIndex

def w5_cov : String → List String :=
  (w5_idx2.coverage_index "Sentence-to-Group").getD (fun _ => [])

/-! ### Witness data for C5: one link and one two-member group -/

def w5w_anns : List Annotation :=
  [⟨"t0", "Token", "c", ⟨0, 1⟩⟩, ⟨"s0", "Sentence", "c", ⟨0, 2⟩⟩,
   ⟨"t1", "Token", "c", ⟨1, 2⟩⟩]

def w5w_L : List Link := [⟨"l0", "Link", "c", "t0", "t1"⟩]

def w5w_G : List Group := [⟨"g0", "Group", "c", ["t0", "t1"]⟩]

def w5w_idx : DataIndex :=
  { emptyDataIndex with entry_index := storeLookup w5w_anns w5w_L w5w_G }

def w5w_idx2 : DataIndex :=
  match build_coverage_index w5w_idx w5w_anns (some w5w_L) (some w5w_G)
      sentenceType entryType with
  | .ok i => i
  | .error _ => emptyDataIndex

def w5w_cov : String → List String :=
  (w5w_idx2.coverage_index "Sentence-to-Entry").getD (fun _ => [])

def annotationType : EntryType where
  name := "Annotation"
  mem := fun e => match e with | .annE _ => true | _ => false
  includesLink := false
  includesGroup := false
  subAnnotation := true
  subLinkOrGroup := false

/-! ### C2 concrete data: Annotation-to-Entry cached, Sentence-to-Token asked -/

def w2_idx2 : DataIndex :=
  match build_coverage_index w1_idx w1_anns (some []) (some [])
      annotationType entryType with
  | .ok i => i
  | .error _ => emptyDataIndex

def w2_covF : String → List String :=
  match getCoverageIndexCached w2_idx2 "Sentence" "Token" with
  | some m => m
  | none => fun _ => []

/-- An operation on the store, as exposed by `DataPack` / `DataIndex`. -/
inductive PackOp where
  | addOp (e : NewEntry)
  | updLinkOp (links : List Link)
  | updGroupOp (groups : List Group)
  | recFieldsOp (fields : List String) (component entry_type : String)

/-- Apply one operation to the store. -/
def applyOp (pack : DataPack) : PackOp → DataPack
  | .addOp e => (add_entry pack e).1
  | .updLinkOp ls => { pack with index := update_link_index pack.index ls }
  | .updGroupOp gs => { pack with index := update_group_index pack.index gs }
  | .recFieldsOp fs c t => record_fields pack fs c t

/-- Apply a sequence of operations to the store. -/
def applyOps (pack : DataPack) (ops : List PackOp) : DataPack :=
  ops.foldl applyOp pack

def w6_pack : DataPack :=
  { emptyDataPack with index := update_link_index emptyDataIndex [] }

def w6_packG : DataPack :=
  { emptyDataPack with index := update_group_index emptyDataIndex [] }

/-! ### Field provenance recording -/

/-- The default component currently recorded for a type name. -/
def defaultComponentOf (pack : DataPack) (entry_type : String) : Option String :=
  ((pack.internal_metas entry_type).getD initInternalMeta).default_component

def w8_pack0 : DataPack := (add_entry emptyDataPack (.annNew none "Token" "c" ⟨0, 1⟩)).1

def w8_pack : DataPack := record_fields w8_pack0 ["lemma"] "tagger" "Token"

def linkType : EntryType where
  name := "Link"
  mem := fun e => match e with | .linkE _ => true | _ => false
  includesLink := true
  includesGroup := false
  subAnnotation := false
  subLinkOrGroup := true

/-! ### When does a coverage build fail? -/

/-- A stored entry whose `_in_span` evaluation cannot raise: annotations
always succeed; links need both endpoints to resolve to annotations; groups
need every member to resolve to an annotation; a default-constructed base
`Entry` always raises. -/
def EntryOk (eIdx : String → Option Entry) : Entry → Prop
  | .annE _ => True
  | .linkE l => (∃ a, eIdx l.child = some (.annE a)) ∧ (∃ a, eIdx l.parent = some (.annE a))
  | .groupE g => ∀ m ∈ g.members, ∃ a, eIdx m = some (.annE a)
  | .entryBase => False

/-- Every id reachable through the probe indexes that passes the inner-type
test resolves to an entry whose `_in_span` cannot raise. -/
def ProbeWF (C : CoverCtx) : Prop :=
  ∀ t id, (id ∈ C.link_child_index t ∨ id ∈ C.link_parent_index t ∨
      id ∈ C.group_index t) →
    C.inner_pred (bracketEntry C id) = true →
    EntryOk C.entry_index (bracketEntry C id)

/-- The links about to be indexed are safe to probe. -/
def LinksOk (idx : DataIndex) (pred : Entry → Bool) (L2 : List Link) : Prop :=
  ∀ l ∈ L2, pred ((idx.entry_index l.tid).getD .entryBase) = true →
    EntryOk idx.entry_index ((idx.entry_index l.tid).getD .entryBase)

/-- The groups about to be indexed are safe to probe. -/
def GroupsOk (idx : DataIndex) (pred : Entry → Bool) (G2 : List Group) : Prop :=
  ∀ g ∈ G2, pred ((idx.entry_index g.tid).getD .entryBase) = true →
    EntryOk idx.entry_index ((idx.entry_index g.tid).getD .entryBase)

/-! ### Geometry of the early-terminating scan

The two lemmas below justify the `elif not self._have_overlap(...): break`:
once a candidate neither lies in the outer span nor overlaps it, no candidate
further out in the same direction of the `(begin, end)`-sorted order can lie
in the outer span. -/

theorem backward_excludes {O k j : Span} (hwfO : wfSpan O) (hwfk : wfSpan k)
    (hkO : lexLe k O) (hjk : lexLe j k)
    (hnin : ¬ inSpanP k O) (hnov : ¬ overlapP k O) : ¬ inSpanP j O := by
  simp only [wfSpan, lexLe, inSpanP, overlapP, ge_iff_le, not_and, not_or, not_not,
    not_forall, not_le] at *
  omega

theorem forward_excludes {O k j : Span} (hwfO : wfSpan O) (hwfk : wfSpan k)
    (hwfj : wfSpan j) (hOk : lexLe O k) (hkj : lexLe k j)
    (hnin : ¬ inSpanP k O) (hnov : ¬ overlapP k O) : ¬ inSpanP j O := by
  simp only [wfSpan, lexLe, inSpanP, overlapP, ge_iff_le, not_and, not_or, not_not,
    not_forall, not_le] at *
  omega

theorem inSpanE_annE (eIdx : String → Option Entry) (a : Annotation) (s : Span) :
    inSpanE eIdx (.annE a) s = .ok (decide (inSpanP a.span s)) := rfl

theorem have_overlap_iff (outer inner : Annotation) :
    have_overlap outer inner = true ↔ overlapP inner.span outer.span := by
  simp only [have_overlap, overlapP, Bool.not_eq_true', decide_eq_false_iff_not, not_or,
    ge_iff_le, not_and, not_le, not_not]
  omega

/-! ### The probe loops -/

theorem probeIds_subset (C : CoverCtx) (outer : Annotation) :
    ∀ (ids : List String) (acc acc' : List String),
      probeIds C outer ids acc = .ok acc' → acc ⊆ acc' := by
  intro ids
  induction ids with
  | nil => intro acc acc' h; simp only [probeIds, Except.ok.injEq] at h; simp [h]
  | cons id rest ih =>
    intro acc acc' h
    by_cases hpred : C.inner_pred (bracketEntry C id) = true
    · simp only [probeIds, hpred, if_pos] at h
      rcases hspan : inSpanE C.entry_index (bracketEntry C id) outer.span with e | b
      · rw [hspan] at h; exact Except.noConfusion h
      · rw [hspan] at h
        refine List.Subset.trans ?_ (ih _ _ h)
        by_cases hb : b = true
        · simp only [hb, if_pos]; exact List.subset_insert _ _
        · simp only [Bool.eq_false_iff.mpr hb]; simp
    · simp only [probeIds, hpred, if_neg, Bool.false_eq_true, if_false] at h
      exact ih _ _ h

theorem probeIds_sound (C : CoverCtx) (outer : Annotation) :
    ∀ (ids : List String) (acc acc' : List String),
      probeIds C outer ids acc = .ok acc' → ∀ t ∈ acc',
        t ∈ acc ∨ (t ∈ ids ∧ C.inner_pred (bracketEntry C t) = true ∧
          inSpanE C.entry_index (bracketEntry C t) outer.span = .ok true) := by
  intro ids
  induction ids with
  | nil =>
    intro acc acc' h t ht
    simp only [probeIds, Except.ok.injEq] at h
    exact Or.inl (h ▸ ht)
  | cons id rest ih =>
    intro acc acc' h t ht
    by_cases hpred : C.inner_pred (bracketEntry C id) = true
    · simp only [probeIds, hpred, if_pos] at h
      rcases hspan : inSpanE C.entry_index (bracketEntry C id) outer.span with e | b
      · rw [hspan] at h; exact Except.noConfusion h
      · rw [hspan] at h
        rcases ih _ _ h t ht with hmem | ⟨hin, hp, hs⟩
        · by_cases hb : b = true
          · rw [hb, if_pos rfl] at hmem
            rcases List.mem_insert_iff.mp hmem with rfl | hmem
            · exact Or.inr ⟨List.mem_cons_self _ _, hpred, hb ▸ hspan⟩
            · exact Or.inl hmem
          · rw [Bool.eq_false_iff.mpr hb] at hmem
            simp only [Bool.false_eq_true, if_false] at hmem
            exact Or.inl hmem
        · exact Or.inr ⟨List.mem_cons_of_mem _ hin, hp, hs⟩
    · simp only [probeIds, hpred, if_neg, Bool.false_eq_true, if_false] at h
      rcases ih _ _ h t ht with hmem | ⟨hin, hp, hs⟩
      · exact Or.inl hmem
      · exact Or.inr ⟨List.mem_cons_of_mem _ hin, hp, hs⟩

theorem probeIds_complete (C : CoverCtx) (outer : Annotation) :
    ∀ (ids : List String) (acc acc' : List String),
      probeIds C outer ids acc = .ok acc' → ∀ id ∈ ids,
        C.inner_pred (bracketEntry C id) = true →
        inSpanE C.entry_index (bracketEntry C id) outer.span = .ok true →
        id ∈ acc' := by
  intro ids
  induction ids with
  | nil => intro acc acc' _ id hid; simp at hid
  | cons id0 rest ih =>
    intro acc acc' h id hid hp hs
    rcases List.mem_cons.mp hid with rfl | hid
    · simp only [probeIds, hp, if_pos] at h
      rw [hs] at h
      exact probeIds_subset C outer _ _ _ h (List.mem_insert_self _ _)
    · by_cases hpred : C.inner_pred (bracketEntry C id0) = true
      · simp only [probeIds, hpred, if_pos] at h
        rcases hspan : inSpanE C.entry_index (bracketEntry C id0) outer.span with e | b
        · rw [hspan] at h; exact Except.noConfusion h
        · rw [hspan] at h
          exact ih _ _ h id hid hp hs
      · simp only [probeIds, hpred, if_neg, Bool.false_eq_true, if_false] at h
        exact ih _ _ h id hid hp hs

/-! ### The directional candidate scan -/

theorem bind_ok_ex {α β : Type} (a : α) (f : α → Except String β) :
    (Bind.bind (Except.ok a) f : Except String β) = f a := rfl

theorem bind_error_ex {α β : Type} (e : String) (f : α → Except String β) :
    (Bind.bind (Except.error e) f : Except String β) = Except.error e := rfl

theorem coveredStep_subset (C : CoverCtx) (outer inner : Annotation)
    (acc acc' : List String) (h : coveredStep C outer inner acc = .ok acc') :
    acc ⊆ acc' := by
  simp only [coveredStep] at h
  generalize hacc1 :
    (if C.inner_pred (Entry.annE inner) = true then List.insert inner.tid acc else acc) = acc1 at h
  have hsub1 : acc ⊆ acc1 := by
    rw [← hacc1]; split
    · exact List.subset_insert _ _
    · exact List.Subset.refl _
  rcases hfl : C.index_link_as_inner with _ | _ <;> rw [hfl] at h <;>
    simp only [Bool.false_eq_true, if_false, if_true, bind_ok_ex] at h
  · rcases hfg : C.index_group_as_inner with _ | _ <;> rw [hfg] at h <;>
      simp only [Bool.false_eq_true, if_false, if_true, bind_ok_ex] at h
    · simp only [Except.ok.injEq] at h
      exact h ▸ hsub1
    · rcases hpg : probeIds C outer (C.group_index inner.tid) acc1 with e | acc2 <;>
        rw [hpg] at h <;> simp only [bind_ok_ex, bind_error_ex] at h
      · exact Except.noConfusion h
      · simp only [Except.ok.injEq] at h
        exact h ▸ (hsub1.trans (probeIds_subset C outer _ _ _ hpg))
  · rcases hpl : probeIds C outer
        (C.link_child_index inner.tid ++ C.link_parent_index inner.tid) acc1 with e | acc2 <;>
      rw [hpl] at h <;> simp only [bind_ok_ex, bind_error_ex] at h
    · exact Except.noConfusion h
    · have hsub2 : acc ⊆ acc2 := hsub1.trans (probeIds_subset C outer _ _ _ hpl)
      rcases hfg : C.index_group_as_inner with _ | _ <;> rw [hfg] at h <;>
        simp only [Bool.false_eq_true, if_false, if_true, bind_ok_ex] at h
      · simp only [Except.ok.injEq] at h
        exact h ▸ hsub2
      · rcases hpg : probeIds C outer (C.group_index inner.tid) acc2 with e | acc3 <;>
          rw [hpg] at h <;> simp only [bind_ok_ex, bind_error_ex] at h
        · exact Except.noConfusion h
        · simp only [Except.ok.injEq] at h
          exact h ▸ (hsub2.trans (probeIds_subset C outer _ _ _ hpg))

theorem coveredStep_sound (C : CoverCtx) (outer inner : Annotation)
    (acc acc' : List String) (h : coveredStep C outer inner acc = .ok acc') :
    ∀ t ∈ acc', t ∈ acc ∨ StepHit C outer inner t := by
  simp only [coveredStep] at h
  generalize hacc1 :
    (if C.inner_pred (Entry.annE inner) = true then List.insert inner.tid acc else acc) = acc1 at h
  have hsound1 : ∀ t ∈ acc1, t ∈ acc ∨ StepHit C outer inner t := by
    intro t ht
    rw [← hacc1] at ht
    by_cases hpred : C.inner_pred (Entry.annE inner) = true
    · rw [if_pos hpred] at ht
      rcases List.mem_insert_iff.mp ht with rfl | hmem
      · exact Or.inr (Or.inl ⟨hpred, rfl⟩)
      · exact Or.inl hmem
    · rw [if_neg hpred] at ht
      exact Or.inl ht
  rcases hfl : C.index_link_as_inner with _ | _ <;> rw [hfl] at h <;>
    simp only [Bool.false_eq_true, if_false, if_true, bind_ok_ex] at h
  · rcases hfg : C.index_group_as_inner with _ | _ <;> rw [hfg] at h <;>
      simp only [Bool.false_eq_true, if_false, if_true, bind_ok_ex] at h
    · simp only [Except.ok.injEq] at h
      exact h ▸ hsound1
    · rcases hpg : probeIds C outer (C.group_index inner.tid) acc1 with e | acc2 <;>
        rw [hpg] at h <;> simp only [bind_ok_ex, bind_error_ex] at h
      · exact Except.noConfusion h
      · simp only [Except.ok.injEq] at h
        subst h
        intro t ht
        rcases probeIds_sound C outer _ _ _ hpg t ht with hmem | ⟨hid, hp, hs⟩
        · exact hsound1 t hmem
        · exact Or.inr (Or.inr (Or.inr ⟨hfg, hid, hp, hs⟩))
  · rcases hpl : probeIds C outer
        (C.link_child_index inner.tid ++ C.link_parent_index inner.tid) acc1 with e | acc2 <;>
      rw [hpl] at h <;> simp only [bind_ok_ex, bind_error_ex] at h
    · exact Except.noConfusion h
    · have hsound2 : ∀ t ∈ acc2, t ∈ acc ∨ StepHit C outer inner t := by
        intro t ht
        rcases probeIds_sound C outer _ _ _ hpl t ht with hmem | ⟨hid, hp, hs⟩
        · exact hsound1 t hmem
        · exact Or.inr (Or.inr (Or.inl ⟨hfl, hid, hp, hs⟩))
      rcases hfg : C.index_group_as_inner with _ | _ <;> rw [hfg] at h <;>
        simp only [Bool.false_eq_true, if_false, if_true, bind_ok_ex] at h
      · simp only [Except.ok.injEq] at h
        exact h ▸ hsound2
      · rcases hpg : probeIds C outer (C.group_index inner.tid) acc2 with e | acc3 <;>
          rw [hpg] at h <;> simp only [bind_ok_ex, bind_error_ex] at h
        · exact Except.noConfusion h
        · simp only [Except.ok.injEq] at h
          subst h
          intro t ht
          rcases probeIds_sound C outer _ _ _ hpg t ht with hmem | ⟨hid, hp, hs⟩
          · exact hsound2 t hmem
          · exact Or.inr (Or.inr (Or.inr ⟨hfg, hid, hp, hs⟩))

theorem coveredStep_complete (C : CoverCtx) (outer inner : Annotation)
    (acc acc' : List String) (h : coveredStep C outer inner acc = .ok acc') :
    ∀ t, StepHit C outer inner t → t ∈ acc' := by
  simp only [coveredStep] at h
  generalize hacc1 :
    (if C.inner_pred (Entry.annE inner) = true then List.insert inner.tid acc else acc) = acc1 at h
  rintro t (⟨hpred, rfl⟩ | ⟨hfl, hid, hp, hs⟩ | ⟨hfg, hid, hp, hs⟩)
  · have hmem1 : inner.tid ∈ acc1 := by
      rw [← hacc1, if_pos hpred]; exact List.mem_insert_self _ _
    rcases hfl : C.index_link_as_inner with _ | _ <;> rw [hfl] at h <;>
      simp only [Bool.false_eq_true, if_false, if_true, bind_ok_ex] at h
    · rcases hfg : C.index_group_as_inner with _ | _ <;> rw [hfg] at h <;>
        simp only [Bool.false_eq_true, if_false, if_true, bind_ok_ex] at h
      · simp only [Except.ok.injEq] at h
        exact h ▸ hmem1
      · rcases hpg : probeIds C outer (C.group_index inner.tid) acc1 with e | acc2 <;>
          rw [hpg] at h <;> simp only [bind_ok_ex, bind_error_ex] at h
        · exact Except.noConfusion h
        · simp only [Except.ok.injEq] at h
          exact h ▸ probeIds_subset C outer _ _ _ hpg hmem1
    · rcases hpl : probeIds C outer
          (C.link_child_index inner.tid ++ C.link_parent_index inner.tid) acc1 with e | acc2 <;>
        rw [hpl] at h <;> simp only [bind_ok_ex, bind_error_ex] at h
      · exact Except.noConfusion h
      · have hmem2 : inner.tid ∈ acc2 := probeIds_subset C outer _ _ _ hpl hmem1
        rcases hfg : C.index_group_as_inner with _ | _ <;> rw [hfg] at h <;>
          simp only [Bool.false_eq_true, if_false, if_true, bind_ok_ex] at h
        · simp only [Except.ok.injEq] at h
          exact h ▸ hmem2
        · rcases hpg : probeIds C outer (C.group_index inner.tid) acc2 with e | acc3 <;>
            rw [hpg] at h <;> simp only [bind_ok_ex, bind_error_ex] at h
          · exact Except.noConfusion h
          · simp only [Except.ok.injEq] at h
            exact h ▸ probeIds_subset C outer _ _ _ hpg hmem2
  · rw [hfl] at h
    simp only [if_true, bind_ok_ex] at h
    rcases hpl : probeIds C outer
        (C.link_child_index inner.tid ++ C.link_parent_index inner.tid) acc1 with e | acc2 <;>
      rw [hpl] at h <;> simp only [bind_ok_ex, bind_error_ex] at h
    · exact Except.noConfusion h
    · have hmem2 : t ∈ acc2 := probeIds_complete C outer _ _ _ hpl t hid hp hs
      rcases hfg : C.index_group_as_inner with _ | _ <;> rw [hfg] at h <;>
        simp only [Bool.false_eq_true, if_false, if_true, bind_ok_ex] at h
      · simp only [Except.ok.injEq] at h
        exact h ▸ hmem2
      · rcases hpg : probeIds C outer (C.group_index inner.tid) acc2 with e | acc3 <;>
          rw [hpg] at h <;> simp only [bind_ok_ex, bind_error_ex] at h
        · exact Except.noConfusion h
        · simp only [Except.ok.injEq] at h
          exact h ▸ probeIds_subset C outer _ _ _ hpg hmem2
  · rw [hfg] at h
    simp only [if_true] at h
    rcases hfl : C.index_link_as_inner with _ | _ <;> rw [hfl] at h <;>
      simp only [Bool.false_eq_true, if_false, if_true, bind_ok_ex] at h
    · rcases hpg : probeIds C outer (C.group_index inner.tid) acc1 with e | acc2 <;>
        rw [hpg] at h <;> simp only [bind_ok_ex, bind_error_ex] at h
      · exact Except.noConfusion h
      · simp only [Except.ok.injEq] at h
        exact h ▸ probeIds_complete C outer _ _ _ hpg t hid hp hs
    · rcases hpl : probeIds C outer
          (C.link_child_index inner.tid ++ C.link_parent_index inner.tid) acc1 with e | acc2 <;>
        rw [hpl] at h <;> simp only [bind_ok_ex, bind_error_ex] at h
      · exact Except.noConfusion h
      · rcases hpg : probeIds C outer (C.group_index inner.tid) acc2 with e | acc3 <;>
          rw [hpg] at h <;> simp only [bind_ok_ex, bind_error_ex] at h
        · exact Except.noConfusion h
        · simp only [Except.ok.injEq] at h
          exact h ▸ probeIds_complete C outer _ _ _ hpg t hid hp hs

theorem ScanHitOn_mono {C : CoverCtx} {outer : Annotation}
    {cands cands' : List Annotation} {t : String} (hsub : cands ⊆ cands') :
    ScanHitOn C outer cands t → ScanHitOn C outer cands' t := by
  rintro ⟨a, ha, hrest⟩
  exact ⟨a, hsub ha, hrest⟩

theorem scan_subset (C : CoverCtx) (outer : Annotation) :
    ∀ (cands : List Annotation) (acc acc' : List String),
      add_covered_entries C outer cands acc = .ok acc' → acc ⊆ acc' := by
  intro cands
  induction cands with
  | nil => intro acc acc' h; simp only [add_covered_entries, Except.ok.injEq] at h; simp [h]
  | cons inner rest ih =>
    intro acc acc' h
    rw [add_covered_entries, inSpanE_annE] at h
    by_cases hin : inSpanP inner.span outer.span
    · rw [decide_eq_true hin] at h
      simp only [bind_ok_ex, if_true] at h
      rcases hcs : coveredStep C outer inner acc with e | acc2 <;>
        rw [hcs] at h <;> simp only [bind_ok_ex, bind_error_ex] at h
      · exact Except.noConfusion h
      · exact (coveredStep_subset C outer inner _ _ hcs).trans (ih _ _ h)
    · rw [decide_eq_false hin] at h
      simp only [bind_ok_ex, Bool.false_eq_true, if_false] at h
      by_cases hov : have_overlap outer inner = true
      · rw [if_pos hov] at h
        exact ih _ _ h
      · rw [if_neg hov] at h
        simp only [Except.ok.injEq] at h
        simp [h]

theorem scan_sound (C : CoverCtx) (outer : Annotation) :
    ∀ (cands : List Annotation) (acc acc' : List String),
      add_covered_entries C outer cands acc = .ok acc' →
      ∀ t ∈ acc', t ∈ acc ∨ ScanHitOn C outer cands t := by
  intro cands
  induction cands with
  | nil =>
    intro acc acc' h t ht
    simp only [add_covered_entries, Except.ok.injEq] at h
    exact Or.inl (h ▸ ht)
  | cons inner rest ih =>
    intro acc acc' h t ht
    rw [add_covered_entries, inSpanE_annE] at h
    by_cases hin : inSpanP inner.span outer.span
    · rw [decide_eq_true hin] at h
      simp only [bind_ok_ex, if_true] at h
      rcases hcs : coveredStep C outer inner acc with e | acc2 <;>
        rw [hcs] at h <;> simp only [bind_ok_ex, bind_error_ex] at h
      · exact Except.noConfusion h
      · rcases ih _ _ h t ht with hmem2 | hhit
        · rcases coveredStep_sound C outer inner _ _ hcs t hmem2 with hmem | hstep
          · exact Or.inl hmem
          · exact Or.inr ⟨inner, List.mem_cons_self _ _, hin, hstep⟩
        · exact Or.inr (ScanHitOn_mono (List.subset_cons_self _ _) hhit)
    · rw [decide_eq_false hin] at h
      simp only [bind_ok_ex, Bool.false_eq_true, if_false] at h
      by_cases hov : have_overlap outer inner = true
      · rw [if_pos hov] at h
        rcases ih _ _ h t ht with hmem | hhit
        · exact Or.inl hmem
        · exact Or.inr (ScanHitOn_mono (List.subset_cons_self _ _) hhit)
      · rw [if_neg hov] at h
        simp only [Except.ok.injEq] at h
        exact Or.inl (h ▸ ht)

theorem scan_complete (C : CoverCtx) (outer : Annotation)
    (R : Annotation → Annotation → Prop) :
    ∀ (cands : List Annotation) (acc acc' : List String),
      add_covered_entries C outer cands acc = .ok acc' →
      List.Pairwise R cands →
      (∀ k j, k ∈ cands → j ∈ cands → R k j → ¬ inSpanP k.span outer.span →
        ¬ overlapP k.span outer.span → ¬ inSpanP j.span outer.span) →
      ∀ t, ScanHitOn C outer cands t → t ∈ acc' := by
  intro cands
  induction cands with
  | nil =>
    intro acc acc' _ _ _ t hhit
    rcases hhit with ⟨a, ha, _⟩
    simp at ha
  | cons inner rest ih =>
    intro acc acc' h hpw hbrk t hhit
    have hpw' : List.Pairwise R rest := (List.pairwise_cons.mp hpw).2
    have hbrk' : ∀ k j, k ∈ rest → j ∈ rest → R k j → ¬ inSpanP k.span outer.span →
        ¬ overlapP k.span outer.span → ¬ inSpanP j.span outer.span := fun k j hk hj =>
      hbrk k j (List.mem_cons_of_mem _ hk) (List.mem_cons_of_mem _ hj)
    rw [add_covered_entries, inSpanE_annE] at h
    by_cases hin : inSpanP inner.span outer.span
    · rw [decide_eq_true hin] at h
      simp only [bind_ok_ex, if_true] at h
      rcases hcs : coveredStep C outer inner acc with e | acc2 <;>
        rw [hcs] at h <;> simp only [bind_ok_ex, bind_error_ex] at h
      · exact Except.noConfusion h
      · rcases hhit with ⟨a, ha, hain, hstep⟩
        rcases List.mem_cons.mp ha with rfl | ha
        · exact scan_subset C outer _ _ _ h
            (coveredStep_complete C outer a _ _ hcs t hstep)
        · exact ih _ _ h hpw' hbrk' t ⟨a, ha, hain, hstep⟩
    · rw [decide_eq_false hin] at h
      simp only [bind_ok_ex, Bool.false_eq_true, if_false] at h
      rcases hhit with ⟨a, ha, hain, hstep⟩
      rcases List.mem_cons.mp ha with rfl | ha
      · exact absurd hain hin
      · by_cases hov : have_overlap outer inner = true
        · rw [if_pos hov] at h
          exact ih _ _ h hpw' hbrk' t ⟨a, ha, hain, hstep⟩
        · have hnov : ¬ overlapP inner.span outer.span := fun hp =>
            hov ((have_overlap_iff outer inner).mpr hp)
          have hR : R inner a := (List.pairwise_cons.mp hpw).1 a ha
          exact absurd hain
            (hbrk inner a (List.mem_cons_self _ _) (List.mem_cons_of_mem _ ha) hR hin hnov)


/-! ### The outer loop -/

theorem buildLoop_writes (C : CoverCtx) (p : Annotation → Bool) :
    ∀ (suffix revPre : List Annotation) (cov cov' : String → List String),
      buildLoop C p revPre suffix cov = .ok cov' →
      ∀ t, (∀ b ∈ suffix, p b = true → b.tid ≠ t) → cov' t = cov t := by
  intro suffix
  induction suffix with
  | nil =>
    intro revPre cov cov' h t _
    simp only [buildLoop, Except.ok.injEq] at h
    rw [h]
  | cons a rest ih =>
    intro revPre cov cov' h t hno
    by_cases hpa : p a = true
    · rw [buildLoop, if_pos hpa] at h
      rcases h1 : add_covered_entries C a (a :: revPre) (cov a.tid) with e | s1 <;>
        rw [h1] at h <;> simp only [bind_ok_ex, bind_error_ex] at h
      · exact Except.noConfusion h
      · rcases h2 : add_covered_entries C a (a :: rest) s1 with e | s2 <;>
          rw [h2] at h <;> simp only [bind_ok_ex, bind_error_ex] at h
        · exact Except.noConfusion h
        · have := ih _ _ _ h t (fun b hb => hno b (List.mem_cons_of_mem _ hb))
          rw [this, if_neg]
          exact fun hEq => hno a (List.mem_cons_self _ _) hpa (hEq ▸ rfl)
    · rw [buildLoop, if_neg hpa] at h
      exact ih _ _ _ h t (fun b hb => hno b (List.mem_cons_of_mem _ hb))

theorem buildLoop_split (C : CoverCtx) (p : Annotation → Bool)
    (O : Annotation) (post : List Annotation) (hpO : p O = true)
    (hpost : ∀ b ∈ post, b.tid ≠ O.tid) :
    ∀ (pre revPre : List Annotation) (cov cov' : String → List String),
      buildLoop C p revPre (pre ++ O :: post) cov = .ok cov' →
      (∀ b ∈ pre, b.tid ≠ O.tid) →
      ∃ s1 s2, add_covered_entries C O (O :: (pre.reverse ++ revPre)) (cov O.tid) = .ok s1 ∧
        add_covered_entries C O (O :: post) s1 = .ok s2 ∧ cov' O.tid = s2 := by
  intro pre
  induction pre with
  | nil =>
    intro revPre cov cov' h _
    rw [List.nil_append, buildLoop, if_pos hpO] at h
    rcases h1 : add_covered_entries C O (O :: revPre) (cov O.tid) with e | s1 <;>
      rw [h1] at h <;> simp only [bind_ok_ex, bind_error_ex] at h
    · exact Except.noConfusion h
    · rcases h2 : add_covered_entries C O (O :: post) s1 with e | s2 <;>
        rw [h2] at h <;> simp only [bind_ok_ex, bind_error_ex] at h
      · exact Except.noConfusion h
      · refine ⟨s1, s2, by simpa using h1, h2, ?_⟩
        have := buildLoop_writes C p post (O :: revPre) _ _ h O.tid
          (fun b hb _ => hpost b hb)
        rw [this, if_pos rfl]
  | cons b pre' ih =>
    intro revPre cov cov' h hpre
    have hbO : b.tid ≠ O.tid := hpre b (List.mem_cons_self _ _)
    have hpre' : ∀ x ∈ pre', x.tid ≠ O.tid := fun x hx => hpre x (List.mem_cons_of_mem _ hx)
    rw [List.cons_append] at h
    by_cases hpb : p b = true
    · rw [buildLoop, if_pos hpb] at h
      rcases h1 : add_covered_entries C b (b :: revPre) (cov b.tid) with e | s1 <;>
        rw [h1] at h <;> simp only [bind_ok_ex, bind_error_ex] at h
      · exact Except.noConfusion h
      · rcases h2 : add_covered_entries C b (b :: (pre' ++ O :: post)) s1 with e | s2 <;>
          rw [h2] at h <;> simp only [bind_ok_ex, bind_error_ex] at h
        · exact Except.noConfusion h
        · obtain ⟨t1, t2, hs1, hs2, hcov⟩ := ih (b :: revPre) _ _ h hpre'
          rw [if_neg (Ne.symm hbO)] at hs1
          refine ⟨t1, t2, ?_, hs2, hcov⟩
          simpa [List.append_assoc] using hs1
    · rw [buildLoop, if_neg hpb] at h
      obtain ⟨t1, t2, hs1, hs2, hcov⟩ := ih (b :: revPre) _ _ h hpre'
      refine ⟨t1, t2, ?_, hs2, hcov⟩
      simpa [List.append_assoc] using hs1

/-- Reflexivity of the span order. -/
theorem lexLe_refl (s : Span) : lexLe s s := Or.inr ⟨rfl, le_refl _⟩

/-- Membership characterization of a freshly built coverage set: after
`buildCov` succeeds over a span-sorted, well-formed, duplicate-free
annotation list, id `t` lies in the set of outer annotation `O` exactly when
some contained candidate contributes it (`ScanHitOn` over the whole list). -/
theorem buildCov_mem_iff (C : CoverCtx) (p : Annotation → Bool)
    (anns : List Annotation) (cov' : String → List String)
    (hsorted : anns.Pairwise (fun x y => lexLe x.span y.span))
    (hwf : ∀ a ∈ anns, wfSpan a.span)
    (hnd : (anns.map Annotation.tid).Nodup)
    (hok : buildCov C p anns (fun _ => []) = .ok cov')
    (O : Annotation) (hO : O ∈ anns) (hpO : p O = true) (t : String) :
    t ∈ cov' O.tid ↔ ScanHitOn C O anns t := by
  obtain ⟨pre, post, rfl⟩ := List.append_of_mem hO
  have hndm : ((pre.map Annotation.tid) ++ O.tid :: (post.map Annotation.tid)).Nodup := by
    simpa using hnd
  have hOpre : O.tid ∉ pre.map Annotation.tid := fun hmem =>
    (List.disjoint_of_nodup_append hndm) hmem (List.mem_cons_self _ _)
  have hOpost : O.tid ∉ post.map Annotation.tid := by
    have := (List.Nodup.of_append_right hndm)
    exact (List.nodup_cons.mp this).1
  have hpre : ∀ b ∈ pre, b.tid ≠ O.tid := by
    intro b hb hEq
    exact hOpre (hEq ▸ List.mem_map_of_mem _ hb)
  have hpost : ∀ b ∈ post, b.tid ≠ O.tid := by
    intro b hb hEq
    exact hOpost (hEq ▸ List.mem_map_of_mem _ hb)
  obtain ⟨s1, s2, hs1, hs2, hcov⟩ :=
    buildLoop_split C p O post hpO hpost pre [] _ _ hok hpre
  rw [List.append_nil] at hs1
  have hsubB : (O :: pre.reverse) ⊆ (pre ++ O :: post) := by
    intro x hx
    rcases List.mem_cons.mp hx with rfl | hx
    · exact hO
    · exact List.mem_append_left _ (List.reverse_subset.mpr (List.Subset.refl _) hx)
  have hsubF : (O :: post) ⊆ (pre ++ O :: post) := (List.sublist_append_right _ _).subset
  have hwfO : wfSpan O.span := hwf O hO
  -- sortedness facts
  have hps := List.pairwise_append.mp hsorted
  have hpreO : ∀ b ∈ pre, lexLe b.span O.span := fun b hb =>
    hps.2.2 b hb O (List.mem_cons_self _ _)
  have hpwF : (O :: post).Pairwise (fun x y => lexLe x.span y.span) :=
    hsorted.sublist (List.sublist_append_right _ _)
  have hpwB : (O :: pre.reverse).Pairwise (fun x y => lexLe y.span x.span) := by
    refine List.pairwise_cons.mpr ⟨?_, ?_⟩
    · intro b hb
      exact hpreO b (List.reverse_subset.mpr (List.Subset.refl _) hb)
    · exact (List.pairwise_reverse.mpr (by simpa using hps.1))
  have hOle : ∀ k ∈ O :: post, lexLe O.span k.span := by
    intro k hk
    rcases List.mem_cons.mp hk with rfl | hk
    · exact lexLe_refl _
    · exact (List.pairwise_cons.mp hpwF).1 k hk
  have hleO : ∀ k ∈ O :: pre.reverse, lexLe k.span O.span := by
    intro k hk
    rcases List.mem_cons.mp hk with rfl | hk
    · exact lexLe_refl _
    · exact hpreO k (List.reverse_subset.mpr (List.Subset.refl _) hk)
  have hbrkF : ∀ k j, k ∈ O :: post → j ∈ O :: post →
      lexLe k.span j.span → ¬ inSpanP k.span O.span → ¬ overlapP k.span O.span →
      ¬ inSpanP j.span O.span := by
    intro k j hk hj hkj hnin hnov
    exact forward_excludes hwfO (hwf k (hsubF hk)) (hwf j (hsubF hj)) (hOle k hk) hkj hnin hnov
  have hbrkB : ∀ k j, k ∈ O :: pre.reverse → j ∈ O :: pre.reverse →
      lexLe j.span k.span → ¬ inSpanP k.span O.span → ¬ overlapP k.span O.span →
      ¬ inSpanP j.span O.span := by
    intro k j hk _ hjk hnin hnov
    exact backward_excludes hwfO (hwf k (hsubB hk)) (hleO k hk) hjk hnin hnov
  rw [hcov]
  constructor
  · intro ht
    rcases scan_sound C O _ _ _ hs2 t ht with hmem1 | hhit
    · rcases scan_sound C O _ _ _ hs1 t hmem1 with hmem0 | hhit
      · simp at hmem0
      · exact ScanHitOn_mono hsubB hhit
    · exact ScanHitOn_mono hsubF hhit
  · rintro ⟨a, ha, hain, hstep⟩
    rcases List.mem_append.mp ha with ha | ha
    · have hhit : ScanHitOn C O (O :: pre.reverse) t :=
        ⟨a, List.mem_cons_of_mem _ (by simpa using ha), hain, hstep⟩
      exact scan_subset C O _ _ _ hs2
        (scan_complete C O _ _ _ _ hs1 hpwB hbrkB t hhit)
    · rcases List.mem_cons.mp ha with hEq | ha
      · exact scan_complete C O _ _ _ _ hs2 hpwF hbrkF t
          ⟨a, by rw [hEq]; exact List.mem_cons_self _ _, hain, hstep⟩
      · exact scan_complete C O _ _ _ _ hs2 hpwF hbrkF t
          ⟨a, List.mem_cons_of_mem _ ha, hain, hstep⟩


/-! ### Faithfulness of the structural-index update routines -/

theorem linkIndexStep_child_mem (idx0 : DataIndex) (l0 : Link) (t id : String) :
    id ∈ (linkIndexStep idx0 l0).link_child_index t ↔
      id ∈ idx0.link_child_index t ∨ (l0.tid = id ∧ l0.child = t) := by
  simp only [linkIndexStep]
  split
  · next ht =>
    subst ht
    rw [List.mem_insert_iff]
    constructor
    · rintro (rfl | h)
      · exact Or.inr ⟨rfl, rfl⟩
      · exact Or.inl h
    · rintro (h | ⟨rfl, _⟩)
      · exact Or.inr h
      · exact Or.inl rfl
  · next ht =>
    constructor
    · exact Or.inl
    · rintro (h | ⟨rfl, hc⟩)
      · exact h
      · exact absurd hc.symm ht

theorem linkIndexStep_parent_mem (idx0 : DataIndex) (l0 : Link) (t id : String) :
    id ∈ (linkIndexStep idx0 l0).link_parent_index t ↔
      id ∈ idx0.link_parent_index t ∨ (l0.tid = id ∧ l0.parent = t) := by
  simp only [linkIndexStep]
  split
  · next ht =>
    subst ht
    rw [List.mem_insert_iff]
    constructor
    · rintro (rfl | h)
      · exact Or.inr ⟨rfl, rfl⟩
      · exact Or.inl h
    · rintro (h | ⟨rfl, _⟩)
      · exact Or.inr h
      · exact Or.inl rfl
  · next ht =>
    constructor
    · exact Or.inl
    · rintro (h | ⟨rfl, hc⟩)
      · exact h
      · exact absurd hc.symm ht

theorem memberIndexStep_mem (gid : String) (idx0 : DataIndex) (m0 t id : String) :
    id ∈ (memberIndexStep gid idx0 m0).group_index t ↔
      id ∈ idx0.group_index t ∨ (gid = id ∧ m0 = t) := by
  simp only [memberIndexStep]
  split
  · next ht =>
    subst ht
    rw [List.mem_insert_iff]
    constructor
    · rintro (rfl | h)
      · exact Or.inr ⟨rfl, rfl⟩
      · exact Or.inl h
    · rintro (h | ⟨rfl, _⟩)
      · exact Or.inr h
      · exact Or.inl rfl
  · next ht =>
    constructor
    · exact Or.inl
    · rintro (h | ⟨rfl, hc⟩)
      · exact h
      · exact absurd hc.symm ht

theorem foldl_linkStep_child_mem :
    ∀ (L : List Link) (idx0 : DataIndex) (t id : String),
      id ∈ (L.foldl linkIndexStep idx0).link_child_index t ↔
        id ∈ idx0.link_child_index t ∨ ∃ l ∈ L, l.tid = id ∧ l.child = t := by
  intro L
  induction L with
  | nil => intro idx0 t id; simp
  | cons l0 L' ih =>
    intro idx0 t id
    rw [List.foldl_cons, ih, linkIndexStep_child_mem, List.exists_mem_cons_iff]
    tauto

theorem foldl_linkStep_parent_mem :
    ∀ (L : List Link) (idx0 : DataIndex) (t id : String),
      id ∈ (L.foldl linkIndexStep idx0).link_parent_index t ↔
        id ∈ idx0.link_parent_index t ∨ ∃ l ∈ L, l.tid = id ∧ l.parent = t := by
  intro L
  induction L with
  | nil => intro idx0 t id; simp
  | cons l0 L' ih =>
    intro idx0 t id
    rw [List.foldl_cons, ih, linkIndexStep_parent_mem, List.exists_mem_cons_iff]
    tauto

theorem update_link_index_child_mem (idx : DataIndex) (L : List Link) (t id : String) :
    id ∈ (update_link_index idx L).link_child_index t ↔
      id ∈ idx.link_child_index t ∨ ∃ l ∈ L, l.tid = id ∧ l.child = t :=
  foldl_linkStep_child_mem L _ t id

theorem update_link_index_parent_mem (idx : DataIndex) (L : List Link) (t id : String) :
    id ∈ (update_link_index idx L).link_parent_index t ↔
      id ∈ idx.link_parent_index t ∨ ∃ l ∈ L, l.tid = id ∧ l.parent = t :=
  foldl_linkStep_parent_mem L _ t id

theorem foldl_memberStep_mem (gid : String) :
    ∀ (ms : List String) (idx0 : DataIndex) (t id : String),
      id ∈ (ms.foldl (memberIndexStep gid) idx0).group_index t ↔
        id ∈ idx0.group_index t ∨ (gid = id ∧ t ∈ ms) := by
  intro ms
  induction ms with
  | nil => intro idx0 t id; simp
  | cons m0 ms' ih =>
    intro idx0 t id
    rw [List.foldl_cons, ih, memberIndexStep_mem]
    simp only [List.mem_cons]
    constructor
    · rintro ((h | ⟨rfl, rfl⟩) | ⟨rfl, hm⟩)
      · exact Or.inl h
      · exact Or.inr ⟨rfl, Or.inl rfl⟩
      · exact Or.inr ⟨rfl, Or.inr hm⟩
    · rintro (h | ⟨rfl, (rfl | hm)⟩)
      · exact Or.inl (Or.inl h)
      · exact Or.inl (Or.inr ⟨rfl, rfl⟩)
      · exact Or.inr ⟨rfl, hm⟩

theorem foldl_groupStep_mem :
    ∀ (G : List Group) (idx0 : DataIndex) (t id : String),
      id ∈ (G.foldl groupIndexStep idx0).group_index t ↔
        id ∈ idx0.group_index t ∨ ∃ g ∈ G, g.tid = id ∧ t ∈ g.members := by
  intro G
  induction G with
  | nil => intro idx0 t id; simp
  | cons g0 G' ih =>
    intro idx0 t id
    rw [List.foldl_cons, ih, groupIndexStep, foldl_memberStep_mem, List.exists_mem_cons_iff]
    tauto

theorem update_group_index_mem (idx : DataIndex) (G : List Group) (t id : String) :
    id ∈ (update_group_index idx G).group_index t ↔
      id ∈ idx.group_index t ∨ ∃ g ∈ G, g.tid = id ∧ t ∈ g.members :=
  foldl_groupStep_mem G _ t id


theorem foldl_linkStep_fields :
    ∀ (L : List Link) (idx0 : DataIndex),
      (L.foldl linkIndexStep idx0).entry_index = idx0.entry_index ∧
      (L.foldl linkIndexStep idx0).type_index = idx0.type_index ∧
      (L.foldl linkIndexStep idx0).component_index = idx0.component_index ∧
      (L.foldl linkIndexStep idx0).group_index = idx0.group_index ∧
      (L.foldl linkIndexStep idx0).coverage_index = idx0.coverage_index ∧
      (L.foldl linkIndexStep idx0).group_index_switch = idx0.group_index_switch ∧
      (L.foldl linkIndexStep idx0).link_index_switch = idx0.link_index_switch ∧
      (L.foldl linkIndexStep idx0).coverage_index_switch = idx0.coverage_index_switch := by
  intro L
  induction L with
  | nil => intro idx0; exact ⟨rfl, rfl, rfl, rfl, rfl, rfl, rfl, rfl⟩
  | cons l0 L' ih =>
    intro idx0
    rw [List.foldl_cons]
    exact ih (linkIndexStep idx0 l0)

theorem foldl_memberStep_fields (gid : String) :
    ∀ (ms : List String) (idx0 : DataIndex),
      (ms.foldl (memberIndexStep gid) idx0).entry_index = idx0.entry_index ∧
      (ms.foldl (memberIndexStep gid) idx0).type_index = idx0.type_index ∧
      (ms.foldl (memberIndexStep gid) idx0).component_index = idx0.component_index ∧
      (ms.foldl (memberIndexStep gid) idx0).link_child_index = idx0.link_child_index ∧
      (ms.foldl (memberIndexStep gid) idx0).link_parent_index = idx0.link_parent_index ∧
      (ms.foldl (memberIndexStep gid) idx0).coverage_index = idx0.coverage_index ∧
      (ms.foldl (memberIndexStep gid) idx0).group_index_switch = idx0.group_index_switch ∧
      (ms.foldl (memberIndexStep gid) idx0).link_index_switch = idx0.link_index_switch ∧
      (ms.foldl (memberIndexStep gid) idx0).coverage_index_switch
        = idx0.coverage_index_switch := by
  intro ms
  induction ms with
  | nil => intro idx0; exact ⟨rfl, rfl, rfl, rfl, rfl, rfl, rfl, rfl, rfl⟩
  | cons m0 ms' ih =>
    intro idx0
    rw [List.foldl_cons]
    exact ih (memberIndexStep gid idx0 m0)

theorem foldl_groupStep_fields :
    ∀ (G : List Group) (idx0 : DataIndex),
      (G.foldl groupIndexStep idx0).entry_index = idx0.entry_index ∧
      (G.foldl groupIndexStep idx0).type_index = idx0.type_index ∧
      (G.foldl groupIndexStep idx0).component_index = idx0.component_index ∧
      (G.foldl groupIndexStep idx0).link_child_index = idx0.link_child_index ∧
      (G.foldl groupIndexStep idx0).link_parent_index = idx0.link_parent_index ∧
      (G.foldl groupIndexStep idx0).coverage_index = idx0.coverage_index ∧
      (G.foldl groupIndexStep idx0).group_index_switch = idx0.group_index_switch ∧
      (G.foldl groupIndexStep idx0).link_index_switch = idx0.link_index_switch ∧
      (G.foldl groupIndexStep idx0).coverage_index_switch = idx0.coverage_index_switch := by
  intro G
  induction G with
  | nil => intro idx0; exact ⟨rfl, rfl, rfl, rfl, rfl, rfl, rfl, rfl, rfl⟩
  | cons g0 G' ih =>
    intro idx0
    rw [List.foldl_cons]
    obtain ⟨h1, h2, h3, h4, h5, h6, h7, h8, h9⟩ := ih (groupIndexStep idx0 g0)
    obtain ⟨m1, m2, m3, m4, m5, m6, m7, m8, m9⟩ :=
      foldl_memberStep_fields g0.tid g0.members idx0
    exact ⟨h1.trans m1, h2.trans m2, h3.trans m3, h4.trans m4, h5.trans m5,
      h6.trans m6, h7.trans m7, h8.trans m8, h9.trans m9⟩

theorem update_link_index_switch (idx : DataIndex) (L : List Link) :
    (update_link_index idx L).link_index_switch = true :=
  (foldl_linkStep_fields L _).2.2.2.2.2.2.1

theorem update_group_index_switch (idx : DataIndex) (G : List Group) :
    (update_group_index idx G).group_index_switch = true :=
  (foldl_groupStep_fields G _).2.2.2.2.2.2.1

theorem update_link_index_entry (idx : DataIndex) (L : List Link) :
    (update_link_index idx L).entry_index = idx.entry_index :=
  (foldl_linkStep_fields L _).1

theorem update_group_index_entry (idx : DataIndex) (G : List Group) :
    (update_group_index idx G).entry_index = idx.entry_index :=
  (foldl_groupStep_fields G _).1

theorem update_link_index_group (idx : DataIndex) (L : List Link) :
    (update_link_index idx L).group_index = idx.group_index :=
  (foldl_linkStep_fields L _).2.2.2.1

theorem update_link_index_group_switch (idx : DataIndex) (L : List Link) :
    (update_link_index idx L).group_index_switch = idx.group_index_switch :=
  (foldl_linkStep_fields L _).2.2.2.2.2.1

theorem update_group_index_link_switch (idx : DataIndex) (G : List Group) :
    (update_group_index idx G).link_index_switch = idx.link_index_switch :=
  (foldl_groupStep_fields G _).2.2.2.2.2.2.2.1

theorem update_group_index_child (idx : DataIndex) (G : List Group) :
    (update_group_index idx G).link_child_index = idx.link_child_index :=
  (foldl_groupStep_fields G _).2.2.2.1

theorem update_group_index_parent (idx : DataIndex) (G : List Group) :
    (update_group_index idx G).link_parent_index = idx.link_parent_index :=
  (foldl_groupStep_fields G _).2.2.2.2.1

theorem update_link_index_coverage (idx : DataIndex) (L : List Link) :
    (update_link_index idx L).coverage_index = idx.coverage_index :=
  (foldl_linkStep_fields L _).2.2.2.2.1

theorem update_group_index_coverage (idx : DataIndex) (G : List Group) :
    (update_group_index idx G).coverage_index = idx.coverage_index :=
  (foldl_groupStep_fields G _).2.2.2.2.2.1


theorem find?_key_unique {α : Type} (f : α → String) :
    ∀ (l : List α), (l.map f).Nodup → ∀ a ∈ l,
      l.find? (fun x => decide (f x = f a)) = some a := by
  intro l
  induction l with
  | nil => intro _ a ha; simp at ha
  | cons b rest ih =>
    intro hnd a ha
    rw [List.map_cons, List.nodup_cons] at hnd
    by_cases hb : f b = f a
    · rw [List.find?_cons_of_pos _ (by simpa using hb)]
      rcases List.mem_cons.mp ha with rfl | ha
      · rfl
      · exact absurd (hb ▸ List.mem_map_of_mem f ha) hnd.1
    · rw [List.find?_cons_of_neg _ (by simpa using hb)]
      rcases List.mem_cons.mp ha with rfl | ha
      · exact absurd rfl hb
      · exact ih hnd.2 a ha

theorem find?_key_none {α : Type} (f : α → String) (l : List α) (k : String)
    (h : ∀ x ∈ l, f x ≠ k) : l.find? (fun x => decide (f x = k)) = none :=
  List.find?_eq_none.mpr (fun x hx => by simpa using h x hx)

theorem storeLookup_ann {anns : List Annotation} {L : List Link} {G : List Group}
    (hnd : (AllTids anns L G).Nodup) {a : Annotation} (ha : a ∈ anns) :
    storeLookup anns L G a.tid = some (.annE a) := by
  have hndA : (anns.map Annotation.tid).Nodup := hnd.of_append_left
  rw [storeLookup, find?_key_unique Annotation.tid anns hndA a ha]

theorem storeLookup_link {anns : List Annotation} {L : List Link} {G : List Group}
    (hnd : (AllTids anns L G).Nodup) {l : Link} (hl : l ∈ L) :
    storeLookup anns L G l.tid = some (.linkE l) := by
  have hdisj := List.disjoint_of_nodup_append hnd
  have hndR : (L.map Link.tid ++ G.map Group.tid).Nodup := hnd.of_append_right
  have hA : anns.find? (fun a => decide (a.tid = l.tid)) = none := by
    refine find?_key_none _ _ _ (fun x hx hEq => ?_)
    exact hdisj (List.mem_map_of_mem _ hx)
      (List.mem_append_left _ (hEq ▸ List.mem_map_of_mem _ hl))
  rw [storeLookup, hA, find?_key_unique Link.tid L hndR.of_append_left l hl]

theorem storeLookup_group {anns : List Annotation} {L : List Link} {G : List Group}
    (hnd : (AllTids anns L G).Nodup) {g : Group} (hg : g ∈ G) :
    storeLookup anns L G g.tid = some (.groupE g) := by
  have hdisj := List.disjoint_of_nodup_append hnd
  have hndR : (L.map Link.tid ++ G.map Group.tid).Nodup := hnd.of_append_right
  have hdisjR := List.disjoint_of_nodup_append hndR
  have hA : anns.find? (fun a => decide (a.tid = g.tid)) = none := by
    refine find?_key_none _ _ _ (fun x hx hEq => ?_)
    exact hdisj (List.mem_map_of_mem _ hx)
      (List.mem_append_right _ (hEq ▸ List.mem_map_of_mem _ hg))
  have hL : L.find? (fun l => decide (l.tid = g.tid)) = none := by
    refine find?_key_none _ _ _ (fun x hx hEq => ?_)
    exact hdisjR (List.mem_map_of_mem _ hx) (hEq ▸ List.mem_map_of_mem _ hg)
  rw [storeLookup, hA, hL, find?_key_unique Group.tid G hndR.of_append_right g hg]

theorem storeLookup_annE_inv {anns : List Annotation} {L : List Link} {G : List Group}
    {t : String} {a : Annotation} (h : storeLookup anns L G t = some (.annE a)) :
    a ∈ anns ∧ a.tid = t := by
  rw [storeLookup] at h
  rcases hA : anns.find? (fun a => decide (a.tid = t)) with _ | a' <;> rw [hA] at h
  · rcases hL : L.find? (fun l => decide (l.tid = t)) with _ | l' <;> rw [hL] at h
    · rcases hG : G.find? (fun g => decide (g.tid = t)) with _ | g' <;> rw [hG] at h
      · exact Option.noConfusion h
      · simp at h
    · simp at h
  · simp only [Option.some.injEq, Entry.annE.injEq] at h
    subst h
    exact ⟨List.mem_of_find?_eq_some hA, by simpa using List.find?_some hA⟩


/-! ### `_in_span` on structural entries -/

theorem inSpanE_linkE (eIdx : String → Option Entry) (l : Link) (s : Span)
    {ca pa : Annotation} (hc : eIdx l.child = some (.annE ca))
    (hp : eIdx l.parent = some (.annE pa)) :
    inSpanE eIdx (.linkE l) s = .ok (decide (inSpanP ca.span s ∧ inSpanP pa.span s)) := by
  rw [inSpanE, hc, hp]
  show Except.ok (decide (min ca.span.begin pa.span.begin ≥ s.begin ∧
    max ca.span.end_ pa.span.end_ ≤ s.end_)) = _
  rw [Except.ok.injEq, decide_eq_decide]
  unfold inSpanP
  omega

theorem groupBoundsLoop_spec (eIdx : String → Option Entry) :
    ∀ (ms : List String) (b0 e0 : Int), 0 ≤ b0 →
      (∀ m ∈ ms, ∃ sm, (eIdx m).bind spanOf = some sm ∧ 0 ≤ sm.begin ∧ wfSpan sm) →
      ∃ b e, groupBoundsLoop eIdx ms b0 e0 = .ok (b, e) ∧ 0 ≤ b ∧
        (∀ m ∈ ms, ∀ sm, (eIdx m).bind spanOf = some sm → b ≤ sm.begin ∧ sm.end_ ≤ e) ∧
        (b = b0 ∨ ∃ m ∈ ms, ∃ sm, (eIdx m).bind spanOf = some sm ∧ sm.begin = b) ∧
        (e = e0 ∨ ∃ m ∈ ms, ∃ sm, (eIdx m).bind spanOf = some sm ∧ sm.end_ = e) ∧
        b ≤ b0 ∧ e0 ≤ e := by
  intro ms
  induction ms with
  | nil =>
    intro b0 e0 hb0 _
    exact ⟨b0, e0, rfl, hb0, by simp, Or.inl rfl, Or.inl rfl, le_refl _, le_refl _⟩
  | cons m0 ms' ih =>
    intro b0 e0 hb0 hres
    obtain ⟨sm0, hsm0, hpos0, hwf0⟩ := hres m0 (List.mem_cons_self _ _)
    have hstep : groupBoundsLoop eIdx (m0 :: ms') b0 e0 =
        groupBoundsLoop eIdx ms' (min b0 sm0.begin) (max e0 sm0.end_) := by
      have hne : ¬ (b0 = (-1 : Int)) := by omega
      simp only [groupBoundsLoop, hsm0, if_neg hne]
    obtain ⟨b, e, heq, hb, hbnd, hbw, hew, hble, hege⟩ :=
      ih (min b0 sm0.begin) (max e0 sm0.end_) (le_min hb0 hpos0)
        (fun m hm => hres m (List.mem_cons_of_mem _ hm))
    refine ⟨b, e, hstep.trans heq, hb, ?_, ?_, ?_, ?_, ?_⟩
    · intro m hm sm hsm
      rcases List.mem_cons.mp hm with rfl | hm
      · rw [hsm0] at hsm
        obtain rfl : sm0 = sm := Option.some_injective _ hsm
        constructor
        · exact hble.trans (min_le_right _ _)
        · exact (le_max_right e0 sm0.end_).trans hege
      · exact hbnd m hm sm hsm
    · rcases hbw with hbeq | ⟨m, hm, sm, hsm, hsmb⟩
      · rcases le_total b0 sm0.begin with hcmp | hcmp
        · rw [min_eq_left hcmp] at hbeq
          exact Or.inl hbeq
        · rw [min_eq_right hcmp] at hbeq
          exact Or.inr ⟨m0, List.mem_cons_self _ _, sm0, hsm0, hbeq.symm⟩
      · exact Or.inr ⟨m, List.mem_cons_of_mem _ hm, sm, hsm, hsmb⟩
    · rcases hew with heeq | ⟨m, hm, sm, hsm, hsme⟩
      · rcases le_total sm0.end_ e0 with hcmp | hcmp
        · rw [max_eq_left hcmp] at heeq
          exact Or.inl heeq
        · rw [max_eq_right hcmp] at heeq
          exact Or.inr ⟨m0, List.mem_cons_self _ _, sm0, hsm0, heeq.symm⟩
      · exact Or.inr ⟨m, List.mem_cons_of_mem _ hm, sm, hsm, hsme⟩
    · exact hble.trans (min_le_left _ _)
    · exact (le_max_left e0 sm0.end_).trans hege

/-- On a non-empty member list whose members resolve to annotations with
non-negative, well-formed spans, the `-1`-sentinel loop computes exactly the
envelope of the member spans. -/
theorem groupBoundsLoop_start (eIdx : String → Option Entry) (m0 : String)
    (ms : List String)
    (hres : ∀ m ∈ m0 :: ms, ∃ sm, (eIdx m).bind spanOf = some sm ∧
      0 ≤ sm.begin ∧ wfSpan sm) :
    ∃ b e, groupBoundsLoop eIdx (m0 :: ms) (-1) (-1) = .ok (b, e) ∧
      (∀ m ∈ m0 :: ms, ∀ sm, (eIdx m).bind spanOf = some sm →
        b ≤ sm.begin ∧ sm.end_ ≤ e) ∧
      (∃ m ∈ m0 :: ms, ∃ sm, (eIdx m).bind spanOf = some sm ∧ sm.begin = b) ∧
      (∃ m ∈ m0 :: ms, ∃ sm, (eIdx m).bind spanOf = some sm ∧ sm.end_ = e) := by
  obtain ⟨sm0, hsm0, hpos0, hwf0⟩ := hres m0 (List.mem_cons_self _ _)
  have hstep : groupBoundsLoop eIdx (m0 :: ms) (-1) (-1) =
      groupBoundsLoop eIdx ms sm0.begin sm0.end_ := by
    simp only [groupBoundsLoop, hsm0, if_pos rfl, if_true, min_self,
      max_eq_right (show (-1 : Int) ≤ sm0.end_ by unfold wfSpan at hwf0; omega)]
  obtain ⟨b, e, heq, hb, hbnd, hbw, hew, hble, hege⟩ :=
    groupBoundsLoop_spec eIdx ms sm0.begin sm0.end_ hpos0
      (fun m hm => hres m (List.mem_cons_of_mem _ hm))
  refine ⟨b, e, hstep.trans heq, ?_, ?_, ?_⟩
  · intro m hm sm hsm
    rcases List.mem_cons.mp hm with rfl | hm
    · rw [hsm0] at hsm
      obtain rfl : sm0 = sm := Option.some_injective _ hsm
      exact ⟨hble, hege⟩
    · exact hbnd m hm sm hsm
  · rcases hbw with hbeq | ⟨m, hm, sm, hsm, hsmb⟩
    · exact ⟨m0, List.mem_cons_self _ _, sm0, hsm0, hbeq.symm⟩
    · exact ⟨m, List.mem_cons_of_mem _ hm, sm, hsm, hsmb⟩
  · rcases hew with heeq | ⟨m, hm, sm, hsm, hsme⟩
    · exact ⟨m0, List.mem_cons_self _ _, sm0, hsm0, heeq.symm⟩
    · exact ⟨m, List.mem_cons_of_mem _ hm, sm, hsm, hsme⟩

/-- `_in_span` for a non-empty Group over a well-formed store: true exactly
when every member's annotation span is contained in `s`. -/
theorem inSpanE_groupE (eIdx : String → Option Entry) (g : Group) (s : Span)
    (hne : g.members ≠ [])
    (hres : ∀ m ∈ g.members, ∃ sm, (eIdx m).bind spanOf = some sm ∧
      0 ≤ sm.begin ∧ wfSpan sm) :
    inSpanE eIdx (.groupE g) s = .ok true ↔
      ∀ m ∈ g.members, ∀ sm, (eIdx m).bind spanOf = some sm → inSpanP sm s := by
  rcases hms : g.members with _ | ⟨m0, ms⟩
  · exact absurd hms hne
  rw [hms] at hres
  obtain ⟨b, e, heq, hbnd, ⟨mb, hmb, smb, hsmb, hsmbeq⟩, ⟨me, hme, sme, hsme, hsmeeq⟩⟩ :=
    groupBoundsLoop_start eIdx m0 ms hres
  rw [inSpanE, hms, heq]
  simp only [bind_ok_ex, Except.ok.injEq, decide_eq_true_eq]
  constructor
  · rintro ⟨hbs, hes⟩ m hm sm hsm
    obtain ⟨hle, hge⟩ := hbnd m hm sm hsm
    show sm.begin ≥ s.begin ∧ sm.end_ ≤ s.end_
    omega
  · intro hall
    obtain ⟨hb1, hb2⟩ : smb.begin ≥ s.begin ∧ smb.end_ ≤ s.end_ := hall mb hmb smb hsmb
    obtain ⟨he1, he2⟩ : sme.begin ≥ s.begin ∧ sme.end_ ≤ s.end_ := hall me hme sme hsme
    omega

/-- `_in_span` for an empty-member Group: the sentinel bounds `[-1, -1)` fail
containment in any span with non-negative begin. -/
theorem inSpanE_groupE_empty (eIdx : String → Option Entry) (g : Group) (s : Span)
    (hemp : g.members = []) (hS : 0 ≤ s.begin) :
    inSpanE eIdx (.groupE g) s = .ok false := by
  rw [inSpanE, hemp]
  simp only [groupBoundsLoop, bind_ok_ex, Except.ok.injEq]
  exact decide_eq_false (by omega)


theorem scanHit_iff_semCov (C : CoverCtx) (anns : List Annotation)
    (L : List Link) (G : List Group) (O : Annotation)
    (hresAll : ∀ (m : String) (am : Annotation), am ∈ anns → am.tid = m →
      C.entry_index m = some (.annE am))
    (hbrLink : ∀ l ∈ L, bracketEntry C l.tid = .linkE l)
    (hbrGroup : ∀ g ∈ G, bracketEntry C g.tid = .groupE g)
    (hcm : ∀ t id, id ∈ C.link_child_index t ↔ ∃ l ∈ L, l.tid = id ∧ l.child = t)
    (hpm : ∀ t id, id ∈ C.link_parent_index t ↔ ∃ l ∈ L, l.tid = id ∧ l.parent = t)
    (hgm : ∀ t id, id ∈ C.group_index t ↔ ∃ g ∈ G, g.tid = id ∧ t ∈ g.members)
    (hwf : ∀ a ∈ anns, wfSpan a.span)
    (hpos : ∀ a ∈ anns, 0 ≤ a.span.begin)
    (hL : ∀ l ∈ L, (∃ a ∈ anns, a.tid = l.child) ∧ (∃ a ∈ anns, a.tid = l.parent))
    (hG : ∀ g ∈ G, ∀ m ∈ g.members, ∃ a ∈ anns, a.tid = m)
    (hflagL : C.index_link_as_inner = false → ∀ l, C.inner_pred (.linkE l) = false)
    (hflagG : C.index_group_as_inner = false → ∀ g, C.inner_pred (.groupE g) = false)
    (t : String) :
    ScanHitOn C O anns t ↔ SemCovStore anns L G C.inner_pred O t := by
  have hresG : ∀ g ∈ G, ∀ m ∈ g.members, ∃ sm, (C.entry_index m).bind spanOf = some sm ∧
      0 ≤ sm.begin ∧ wfSpan sm := by
    intro g hg m hm
    obtain ⟨am, ham, hamtid⟩ := hG g hg m hm
    exact ⟨am.span, by rw [hresAll m am ham hamtid]; rfl, hpos am ham, hwf am ham⟩
  constructor
  · rintro ⟨a, ha, hain, hstep⟩
    rcases hstep with ⟨hpred, rfl⟩ | ⟨hflag, hid, hpredb, hs⟩ | ⟨hflag, hid, hpredb, hs⟩
    · exact Or.inl ⟨a, ha, hpred, hain, rfl⟩
    · have hlid : ∃ l ∈ L, l.tid = t := by
        rcases List.mem_append.mp hid with hidc | hidp
        · obtain ⟨l, hl, hlt, _⟩ := (hcm _ _).mp hidc
          exact ⟨l, hl, hlt⟩
        · obtain ⟨l, hl, hlt, _⟩ := (hpm _ _).mp hidp
          exact ⟨l, hl, hlt⟩
      obtain ⟨l, hl, hlt⟩ := hlid
      subst hlt
      rw [hbrLink l hl] at hpredb hs
      obtain ⟨⟨ca, hca, hcatid⟩, ⟨pa, hpa, hpatid⟩⟩ := hL l hl
      rw [inSpanE_linkE C.entry_index l O.span (hresAll _ ca hca hcatid)
        (hresAll _ pa hpa hpatid)] at hs
      simp only [Except.ok.injEq, decide_eq_true_eq] at hs
      exact Or.inr (Or.inl ⟨l, hl, hpredb, rfl,
        ca, hca, pa, hpa, hcatid, hpatid, hs.1, hs.2⟩)
    · obtain ⟨g, hg, hgt, hmem⟩ := (hgm _ _).mp hid
      subst hgt
      rw [hbrGroup g hg] at hpredb hs
      have hne : g.members ≠ [] := fun hemp => by
        rw [hemp] at hmem
        simp at hmem
      have hall := (inSpanE_groupE C.entry_index g O.span hne (hresG g hg)).mp hs
      refine Or.inr (Or.inr ⟨g, hg, hpredb, rfl, hne, ?_⟩)
      intro m hm
      obtain ⟨am, ham, hamtid⟩ := hG g hg m hm
      refine ⟨am, ham, hamtid, ?_⟩
      exact hall m hm am.span (by rw [hresAll m am ham hamtid]; rfl)
  · rintro (⟨a, ha, hpred, hain, rfl⟩ |
      ⟨l, hl, hpred, rfl, ca, hca, pa, hpa, hcatid, hpatid, hinc, hinp⟩ |
      ⟨g, hg, hpred, rfl, hne, hmemall⟩)
    · exact ⟨a, ha, hain, Or.inl ⟨hpred, rfl⟩⟩
    · have hflag : C.index_link_as_inner = true := by
        rcases hfl2 : C.index_link_as_inner with _ | _
        · exact absurd hpred (by rw [hflagL hfl2 l]; simp)
        · rfl
      refine ⟨ca, hca, hinc, Or.inr (Or.inl ⟨hflag, ?_, ?_, ?_⟩)⟩
      · exact List.mem_append_left _ ((hcm _ _).mpr ⟨l, hl, rfl, hcatid.symm⟩)
      · rw [hbrLink l hl]
        exact hpred
      · rw [hbrLink l hl,
          inSpanE_linkE C.entry_index l O.span (hresAll _ ca hca hcatid)
            (hresAll _ pa hpa hpatid)]
        simp only [Except.ok.injEq]
        exact decide_eq_true ⟨hinc, hinp⟩
    · have hflag : C.index_group_as_inner = true := by
        rcases hfg2 : C.index_group_as_inner with _ | _
        · exact absurd hpred (by rw [hflagG hfg2 g]; simp)
        · rfl
      rcases hms : g.members with _ | ⟨m0, ms⟩
      · exact absurd hms hne
      obtain ⟨am0, ham0, ham0tid, ham0in⟩ := hmemall m0 (hms ▸ List.mem_cons_self _ _)
      refine ⟨am0, ham0, ham0in, Or.inr (Or.inr ⟨hflag, ?_, ?_, ?_⟩)⟩
      · refine (hgm _ _).mpr ⟨g, hg, rfl, ?_⟩
        rw [ham0tid, hms]
        exact List.mem_cons_self _ _
      · rw [hbrGroup g hg]
        exact hpred
      · rw [hbrGroup g hg]
        refine (inSpanE_groupE C.entry_index g O.span hne (hresG g hg)).mpr ?_
        intro m hm sm hsm
        obtain ⟨a1, ha1, ha1tid, ha1in⟩ := hmemall m hm
        have : C.entry_index m = some (.annE a1) := hresAll m a1 ha1 ha1tid
        rw [this] at hsm
        obtain rfl : a1.span = sm := by
          simpa [spanOf] using hsm
        exact ha1in


theorem build_fresh_elim (idx : DataIndex) (anns : List Annotation)
    (L : List Link) (G : List Group) (ot it : EntryType) (idx' : DataIndex)
    (hswL : idx.link_index_switch = false) (hswG : idx.group_index_switch = false)
    (hok : build_coverage_index idx anns (some L) (some G) ot it = .ok idx') :
    ∃ cov', buildCov (coverCtxOf (freshBuildIndex idx L G it) it)
        (fun a => ot.mem (.annE a)) anns
        (((freshBuildIndex idx L G it).coverage_index
          (ot.name ++ "-to-" ++ it.name)).getD (fun _ => [])) = .ok cov' ∧
      idx'.coverage_index (ot.name ++ "-to-" ++ it.name) = some cov' := by
  rw [build_coverage_index] at hok
  have hstage1 : linkStage idx (some L) it
      = .ok (if it.includesLink then update_link_index idx L else idx) := by
    rw [linkStage]
    rcases it.includesLink with _ | _
    · simp
    · simp [hswL]
  rw [hstage1] at hok
  simp only [bind_ok_ex] at hok
  set idxL := if it.includesLink then update_link_index idx L else idx with hidxL
  have hswG1 : idxL.group_index_switch = false := by
    rw [hidxL]
    rcases it.includesLink with _ | _
    · simpa using hswG
    · simpa [update_link_index_group_switch] using hswG
  have hstage2 : groupStage idxL (some G) it
      = .ok (if it.includesGroup then update_group_index idxL G else idxL) := by
    rw [groupStage]
    rcases it.includesGroup with _ | _
    · simp
    · simp [hswG1]
  rw [hstage2] at hok
  simp only [bind_ok_ex] at hok
  set idx2 := if it.includesGroup then update_group_index idxL G else idxL with hidx2
  rcases hbc : buildCov (coverCtxOf idx2 it) (fun a => ot.mem (.annE a)) anns
      ((idx2.coverage_index (ot.name ++ "-to-" ++ it.name)).getD (fun _ => []))
    with e | cov <;> rw [hbc] at hok <;>
    simp only [bind_ok_ex, bind_error_ex] at hok
  · exact Except.noConfusion hok
  · simp only [Except.ok.injEq] at hok
    refine ⟨cov, hbc, ?_⟩
    rw [← hok]
    simp


theorem freshBuildIndex_entry (idx : DataIndex) (L : List Link) (G : List Group)
    (it : EntryType) : (freshBuildIndex idx L G it).entry_index = idx.entry_index := by
  unfold freshBuildIndex
  rcases it.includesGroup with _ | _ <;> rcases it.includesLink with _ | _ <;>
    simp [update_group_index_entry, update_link_index_entry]

theorem freshBuildIndex_coverage (idx : DataIndex) (L : List Link) (G : List Group)
    (it : EntryType) : (freshBuildIndex idx L G it).coverage_index = idx.coverage_index := by
  unfold freshBuildIndex
  rcases it.includesGroup with _ | _ <;> rcases it.includesLink with _ | _ <;>
    simp [update_group_index_coverage, update_link_index_coverage]

theorem freshBuildIndex_child (idx : DataIndex) (L : List Link) (G : List Group)
    (it : EntryType) :
    (freshBuildIndex idx L G it).link_child_index =
      (if it.includesLink then update_link_index idx L else idx).link_child_index := by
  unfold freshBuildIndex
  rcases it.includesGroup with _ | _ <;> simp [update_group_index_child]

theorem freshBuildIndex_parent (idx : DataIndex) (L : List Link) (G : List Group)
    (it : EntryType) :
    (freshBuildIndex idx L G it).link_parent_index =
      (if it.includesLink then update_link_index idx L else idx).link_parent_index := by
  unfold freshBuildIndex
  rcases it.includesGroup with _ | _ <;> simp [update_group_index_parent]

theorem freshBuildIndex_child_mem (idx : DataIndex) (L : List Link) (G : List Group)
    (it : EntryType) (hfresh : idx.link_child_index = fun _ => [])
    (hlink : it.includesLink = true) (t id : String) :
    id ∈ (freshBuildIndex idx L G it).link_child_index t ↔
      ∃ l ∈ L, l.tid = id ∧ l.child = t := by
  rw [freshBuildIndex_child, hlink, if_pos rfl, update_link_index_child_mem, hfresh]
  simp

theorem freshBuildIndex_parent_mem (idx : DataIndex) (L : List Link) (G : List Group)
    (it : EntryType) (hfresh : idx.link_parent_index = fun _ => [])
    (hlink : it.includesLink = true) (t id : String) :
    id ∈ (freshBuildIndex idx L G it).link_parent_index t ↔
      ∃ l ∈ L, l.tid = id ∧ l.parent = t := by
  rw [freshBuildIndex_parent, hlink, if_pos rfl, update_link_index_parent_mem, hfresh]
  simp

theorem freshBuildIndex_group_mem (idx : DataIndex) (L : List Link) (G : List Group)
    (it : EntryType) (hfresh : idx.group_index = fun _ => [])
    (hgroup : it.includesGroup = true) (t id : String) :
    id ∈ (freshBuildIndex idx L G it).group_index t ↔
      ∃ g ∈ G, g.tid = id ∧ t ∈ g.members := by
  unfold freshBuildIndex
  rw [hgroup, if_pos rfl, update_group_index_mem]
  rcases it.includesLink with _ | _
  · simp only [Bool.false_eq_true, if_false, hfresh]
    simp
  · simp only [if_true]
    rw [show (update_link_index idx L).group_index = idx.group_index from
      (foldl_linkStep_fields L _).2.2.2.1, hfresh]
    simp

theorem freshBuildIndex_child_off (idx : DataIndex) (L : List Link) (G : List Group)
    (it : EntryType) (hlink : it.includesLink = false) :
    (freshBuildIndex idx L G it).link_child_index = idx.link_child_index := by
  rw [freshBuildIndex_child, hlink]
  simp

theorem freshBuildIndex_parent_off (idx : DataIndex) (L : List Link) (G : List Group)
    (it : EntryType) (hlink : it.includesLink = false) :
    (freshBuildIndex idx L G it).link_parent_index = idx.link_parent_index := by
  rw [freshBuildIndex_parent, hlink]
  simp

theorem freshBuildIndex_group_off (idx : DataIndex) (L : List Link) (G : List Group)
    (it : EntryType) (hgroup : it.includesGroup = false) :
    (freshBuildIndex idx L G it).group_index =
      (if it.includesLink then update_link_index idx L else idx).group_index := by
  unfold freshBuildIndex
  rw [hgroup]
  simp


/-- Full characterization of a coverage index built by `build_coverage_index`
over a fresh index state (both structural switches off, raw collections
supplied, no pre-existing map under the target name): membership in the
resulting per-outer sets is exactly store-level coverage, restricted to the
variants the inner type can include. -/
theorem build_fresh_char
    (idx : DataIndex) (anns : List Annotation) (L : List Link) (G : List Group)
    (ot it : EntryType) (idx' : DataIndex) (cov' : String → List String)
    (hswL : idx.link_index_switch = false) (hswG : idx.group_index_switch = false)
    (hfc : idx.link_child_index = fun _ => [])
    (hfp : idx.link_parent_index = fun _ => [])
    (hfg : idx.group_index = fun _ => [])
    (heidx : idx.entry_index = storeLookup anns L G)
    (hcov0 : idx.coverage_index (ot.name ++ "-to-" ++ it.name) = none)
    (hsorted : anns.Pairwise (fun x y => lexLe x.span y.span))
    (hwf : ∀ a ∈ anns, wfSpan a.span)
    (hpos : ∀ a ∈ anns, 0 ≤ a.span.begin)
    (hnd : (AllTids anns L G).Nodup)
    (hL : ∀ l ∈ L, (∃ a ∈ anns, a.tid = l.child) ∧ (∃ a ∈ anns, a.tid = l.parent))
    (hG : ∀ g ∈ G, ∀ m ∈ g.members, ∃ a ∈ anns, a.tid = m)
    (hcohL : it.includesLink = false → ∀ l, it.mem (.linkE l) = false)
    (hcohG : it.includesGroup = false → ∀ g, it.mem (.groupE g) = false)
    (hok : build_coverage_index idx anns (some L) (some G) ot it = .ok idx')
    (hcov' : idx'.coverage_index (ot.name ++ "-to-" ++ it.name) = some cov')
    (O : Annotation) (hO : O ∈ anns) (hpO : ot.mem (.annE O) = true) (t : String) :
    t ∈ cov' O.tid ↔
      SemCovStore anns (if it.includesLink then L else [])
        (if it.includesGroup then G else []) it.mem O t := by
  obtain ⟨cov2, hbc, hcov2⟩ := build_fresh_elim idx anns L G ot it idx' hswL hswG hok
  rw [hcov2] at hcov'
  have hcc : cov2 = cov' := Option.some_injective _ hcov'
  rw [hcc, freshBuildIndex_coverage, hcov0] at hbc
  simp only [Option.getD_none] at hbc
  have hCe : (coverCtxOf (freshBuildIndex idx L G it) it).entry_index
      = storeLookup anns L G := by
    show (freshBuildIndex idx L G it).entry_index = _
    rw [freshBuildIndex_entry, heidx]
  have hres : ∀ (m : String) (am : Annotation), am ∈ anns → am.tid = m →
      (coverCtxOf (freshBuildIndex idx L G it) it).entry_index m = some (.annE am) := by
    intro m am ham htid
    rw [hCe, ← htid]
    exact storeLookup_ann hnd ham
  have hmem := buildCov_mem_iff (coverCtxOf (freshBuildIndex idx L G it) it)
    (fun a => ot.mem (.annE a)) anns cov' hsorted hwf hnd.of_append_left hbc O hO hpO t
  rw [hmem]
  refine scanHit_iff_semCov _ anns _ _ O hres ?_ ?_ ?_ ?_ ?_ hwf hpos ?_ ?_ ?_ ?_ t
  · intro l hl
    have hlL : l ∈ L := by
      rcases hil : it.includesLink with _ | _ <;> rw [hil] at hl
      · simp at hl
      · simpa using hl
    rw [bracketEntry, hCe, storeLookup_link hnd hlL]
    rfl
  · intro g hg
    have hgG : g ∈ G := by
      rcases hig : it.includesGroup with _ | _ <;> rw [hig] at hg
      · simp at hg
      · simpa using hg
    rw [bracketEntry, hCe, storeLookup_group hnd hgG]
    rfl
  · intro u id
    show id ∈ (freshBuildIndex idx L G it).link_child_index u ↔ _
    rcases hil : it.includesLink with _ | _
    · rw [freshBuildIndex_child_off idx L G it hil, hfc]
      simp
    · rw [freshBuildIndex_child_mem idx L G it hfc hil]
      simp
  · intro u id
    show id ∈ (freshBuildIndex idx L G it).link_parent_index u ↔ _
    rcases hil : it.includesLink with _ | _
    · rw [freshBuildIndex_parent_off idx L G it hil, hfp]
      simp
    · rw [freshBuildIndex_parent_mem idx L G it hfp hil]
      simp
  · intro u id
    show id ∈ (freshBuildIndex idx L G it).group_index u ↔ _
    rcases hig : it.includesGroup with _ | _
    · rw [freshBuildIndex_group_off idx L G it hig]
      rcases hil : it.includesLink with _ | _
      · simp only [Bool.false_eq_true, if_false, hfg]
        simp
      · simp only [if_true]
        rw [show (update_link_index idx L).group_index = idx.group_index from
          (foldl_linkStep_fields L _).2.2.2.1, hfg]
        simp
    · rw [freshBuildIndex_group_mem idx L G it hfg hig]
      simp
  · intro l hl
    rcases hil : it.includesLink with _ | _ <;> rw [hil] at hl
    · simp at hl
    · exact hL l (by simpa using hl)
  · intro g hg
    rcases hig : it.includesGroup with _ | _ <;> rw [hig] at hg
    · simp at hg
    · exact hG g (by simpa using hg)
  · intro hflag l
    exact hcohL hflag l
  · intro hflag g
    exact hcohG hflag g


/-- Claim C1: after `build_coverage_index(outer_type, inner_type)` runs over
the store's annotation collection (fresh index state, well-formed store),
for every outer annotation `O` of the outer type and every inner annotation
`I` of the inner type, `I.tid` lies in the coverage entry of `O.tid` iff
`I.span.begin ≥ O.span.begin ∧ I.span.end ≤ O.span.end`: the bidirectional
early-termination scan misses no contained annotation and adds no
non-contained one. -/
theorem claim_C1
    (idx : DataIndex) (anns : List Annotation) (L : List Link) (G : List Group)
    (outer_type inner_type : EntryType) (idx' : DataIndex) (cov' : String → List String)
    (hswL : idx.link_index_switch = false) (hswG : idx.group_index_switch = false)
    (hfc : idx.link_child_index = fun _ => [])
    (hfp : idx.link_parent_index = fun _ => [])
    (hfg : idx.group_index = fun _ => [])
    (heidx : idx.entry_index = storeLookup anns L G)
    (hcov0 : idx.coverage_index (outer_type.name ++ "-to-" ++ inner_type.name) = none)
    (hsorted : anns.Pairwise (fun x y => lexLe x.span y.span))
    (hwf : ∀ a ∈ anns, wfSpan a.span)
    (hpos : ∀ a ∈ anns, 0 ≤ a.span.begin)
    (hnd : (AllTids anns L G).Nodup)
    (hL : ∀ l ∈ L, (∃ a ∈ anns, a.tid = l.child) ∧ (∃ a ∈ anns, a.tid = l.parent))
    (hG : ∀ g ∈ G, ∀ m ∈ g.members, ∃ a ∈ anns, a.tid = m)
    (hcohL : inner_type.includesLink = false → ∀ l, inner_type.mem (.linkE l) = false)
    (hcohG : inner_type.includesGroup = false → ∀ g, inner_type.mem (.groupE g) = false)
    (hok : build_coverage_index idx anns (some L) (some G) outer_type inner_type
      = .ok idx')
    (hcov' : idx'.coverage_index (outer_type.name ++ "-to-" ++ inner_type.name)
      = some cov')
    (O : Annotation) (hO : O ∈ anns) (hpO : outer_type.mem (.annE O) = true)
    (I : Annotation) (hI : I ∈ anns) (hpI : inner_type.mem (.annE I) = true) :
    I.tid ∈ cov' O.tid ↔ inSpanP I.span O.span := by
  rw [build_fresh_char idx anns L G outer_type inner_type idx' cov' hswL hswG hfc hfp
    hfg heidx hcov0 hsorted hwf hpos hnd hL hG hcohL hcohG hok hcov' O hO hpO I.tid]
  have hdisj := List.disjoint_of_nodup_append hnd
  have tidInj : ∀ a ∈ anns, ∀ b ∈ anns, a.tid = b.tid → a = b :=
    List.inj_on_of_nodup_map hnd.of_append_left
  constructor
  · rintro (⟨a, ha, _, hain, htid⟩ | ⟨l, hl, _, htid, _⟩ | ⟨g, hg, _, htid, _⟩)
    · obtain rfl : a = I := tidInj a ha I hI htid
      exact hain
    · have hlL : l ∈ L := by
        rcases hil : inner_type.includesLink with _ | _ <;> rw [hil] at hl
        · simp at hl
        · simpa using hl
      exact absurd (htid ▸ List.mem_map_of_mem Link.tid hlL)
        (fun hm => hdisj (List.mem_map_of_mem Annotation.tid hI)
          (List.mem_append_left _ hm))
    · have hgG : g ∈ G := by
        rcases hig : inner_type.includesGroup with _ | _ <;> rw [hig] at hg
        · simp at hg
        · simpa using hg
      exact absurd (htid ▸ List.mem_map_of_mem Group.tid hgG)
        (fun hm => hdisj (List.mem_map_of_mem Annotation.tid hI)
          (List.mem_append_right _ hm))
  · intro hin
    exact Or.inl ⟨I, hI, hpI, hin, rfl⟩


theorem claim_C1_witness :
    (("t0" ∈ w1_cov "s0") ↔ inSpanP ⟨0, 1⟩ ⟨0, 2⟩) ∧ "t0" ∈ w1_cov "s0" := by
  constructor
  · exact claim_C1 w1_idx w1_anns [] [] sentenceType tokenType w1_idx2 w1_cov
      rfl rfl rfl rfl rfl rfl rfl
      (by decide) (by decide) (by decide) (by decide)
      (by simp) (by simp) (fun _ l => rfl) (fun _ g => rfl)
      rfl rfl
      ⟨"s0", "Sentence", "c", ⟨0, 2⟩⟩ (by decide) (by decide)
      ⟨"t0", "Token", "c", ⟨0, 1⟩⟩ (by decide) (by decide)
  · decide


/-- Claim C5 (amended): in a coverage index built with an inner type that
accepts Link (resp. Group) entries, over a well-formed store with
non-negative span begins, a Link is recorded as covered by outer `O` iff both
its parent and child annotations are covered by `O`'s span; a Group **with at
least one member** is recorded as covered iff every member is covered.
(An empty-member Group is never recorded, although "every member covered"
holds vacuously — see the counterexample.) -/
theorem claim_C5_amended
    (idx : DataIndex) (anns : List Annotation) (L : List Link) (G : List Group)
    (outer_type inner_type : EntryType) (idx' : DataIndex) (cov' : String → List String)
    (hswL : idx.link_index_switch = false) (hswG : idx.group_index_switch = false)
    (hfc : idx.link_child_index = fun _ => [])
    (hfp : idx.link_parent_index = fun _ => [])
    (hfg : idx.group_index = fun _ => [])
    (heidx : idx.entry_index = storeLookup anns L G)
    (hcov0 : idx.coverage_index (outer_type.name ++ "-to-" ++ inner_type.name) = none)
    (hsorted : anns.Pairwise (fun x y => lexLe x.span y.span))
    (hwf : ∀ a ∈ anns, wfSpan a.span)
    (hpos : ∀ a ∈ anns, 0 ≤ a.span.begin)
    (hnd : (AllTids anns L G).Nodup)
    (hL : ∀ l ∈ L, (∃ a ∈ anns, a.tid = l.child) ∧ (∃ a ∈ anns, a.tid = l.parent))
    (hG : ∀ g ∈ G, ∀ m ∈ g.members, ∃ a ∈ anns, a.tid = m)
    (hcohL : inner_type.includesLink = false → ∀ l, inner_type.mem (.linkE l) = false)
    (hcohG : inner_type.includesGroup = false → ∀ g, inner_type.mem (.groupE g) = false)
    (hok : build_coverage_index idx anns (some L) (some G) outer_type inner_type
      = .ok idx')
    (hcov' : idx'.coverage_index (outer_type.name ++ "-to-" ++ inner_type.name)
      = some cov')
    (O : Annotation) (hO : O ∈ anns) (hpO : outer_type.mem (.annE O) = true) :
    (∀ l ∈ L, inner_type.mem (.linkE l) = true → inner_type.includesLink = true →
      ∀ ca ∈ anns, ∀ pa ∈ anns, ca.tid = l.child → pa.tid = l.parent →
        (l.tid ∈ cov' O.tid ↔ (inSpanP ca.span O.span ∧ inSpanP pa.span O.span))) ∧
    (∀ g ∈ G, inner_type.mem (.groupE g) = true → inner_type.includesGroup = true →
      g.members ≠ [] →
        (g.tid ∈ cov' O.tid ↔
          ∀ m ∈ g.members, ∀ a ∈ anns, a.tid = m → inSpanP a.span O.span)) := by
  have hchar := build_fresh_char idx anns L G outer_type inner_type idx' cov' hswL hswG
    hfc hfp hfg heidx hcov0 hsorted hwf hpos hnd hL hG hcohL hcohG hok hcov' O hO hpO
  have hdisj := List.disjoint_of_nodup_append hnd
  have hndRest := hnd.of_append_right
  have hdisjLG := List.disjoint_of_nodup_append hndRest
  have tidInj : ∀ a ∈ anns, ∀ b ∈ anns, a.tid = b.tid → a = b :=
    List.inj_on_of_nodup_map hnd.of_append_left
  have linkInj : ∀ x ∈ L, ∀ y ∈ L, x.tid = y.tid → x = y :=
    List.inj_on_of_nodup_map hndRest.of_append_left
  have groupInj : ∀ x ∈ G, ∀ y ∈ G, x.tid = y.tid → x = y :=
    List.inj_on_of_nodup_map hndRest.of_append_right
  constructor
  · intro l hl hpredl hflagl ca hca pa hpa hcatid hpatid
    rw [hchar l.tid]
    constructor
    · rintro (⟨a, ha, _, hain, htid⟩ | ⟨l2, hl2, _, htid, ca2, hca2, pa2, hpa2,
        hca2tid, hpa2tid, hin2c, hin2p⟩ | ⟨g, hg, _, htid, _, _⟩)
      · exact absurd (htid ▸ List.mem_map_of_mem Link.tid hl)
          (fun hm => hdisj (List.mem_map_of_mem Annotation.tid ha)
            (List.mem_append_left _ hm))
      · have hl2L : l2 ∈ L := by
          rw [hflagl] at hl2
          simpa using hl2
        obtain rfl : l2 = l := linkInj l2 hl2L l hl htid
        obtain rfl : ca2 = ca := tidInj ca2 hca2 ca hca (hca2tid.trans hcatid.symm)
        obtain rfl : pa2 = pa := tidInj pa2 hpa2 pa hpa (hpa2tid.trans hpatid.symm)
        exact ⟨hin2c, hin2p⟩
      · have hgG : g ∈ G := by
          rcases hig : inner_type.includesGroup with _ | _ <;> rw [hig] at hg
          · simp at hg
          · simpa using hg
        exact absurd (htid ▸ List.mem_map_of_mem Group.tid hgG)
          (hdisjLG (List.mem_map_of_mem Link.tid hl))
    · rintro ⟨hinc, hinp⟩
      refine Or.inr (Or.inl ⟨l, ?_, hpredl, rfl, ca, hca, pa, hpa, hcatid, hpatid,
        hinc, hinp⟩)
      rw [hflagl]
      simpa using hl
  · intro g hg hpredg hflagg hne
    rw [hchar g.tid]
    constructor
    · rintro (⟨a, ha, _, hain, htid⟩ | ⟨l2, hl2, _, htid, _⟩ | ⟨g2, hg2, _, htid, _,
        hmemall⟩)
      · exact absurd (htid ▸ List.mem_map_of_mem Group.tid hg)
          (fun hm => hdisj (List.mem_map_of_mem Annotation.tid ha)
            (List.mem_append_right _ hm))
      · have hl2L : l2 ∈ L := by
          rcases hil : inner_type.includesLink with _ | _ <;> rw [hil] at hl2
          · simp at hl2
          · simpa using hl2
        exact absurd (htid ▸ List.mem_map_of_mem Group.tid hg)
          (fun hm => hdisjLG (List.mem_map_of_mem Link.tid hl2L) hm)
      · have hg2G : g2 ∈ G := by
          rw [hflagg] at hg2
          simpa using hg2
        obtain rfl : g2 = g := groupInj g2 hg2G g hg htid
        intro m hm a ha hatid
        obtain ⟨a2, ha2, ha2tid, ha2in⟩ := hmemall m hm
        obtain rfl : a2 = a := tidInj a2 ha2 a ha (ha2tid.trans hatid.symm)
        exact ha2in
    · intro hall
      refine Or.inr (Or.inr ⟨g, ?_, hpredg, rfl, hne, ?_⟩)
      · rw [hflagg]
        simpa using hg
      · intro m hm
        obtain ⟨a, ha, hatid⟩ := hG g hg m hm
        exact ⟨a, ha, hatid, hall m hm a ha hatid⟩


/-- Claim C5, counterexample: the build over a store holding the
empty-member group `g0` and the annotation `a0 = [0,2)` succeeds, "every
member of `g0` is covered by `a0`" holds vacuously, yet `g0` is not recorded
as covered — the claimed equivalence is false as stated. -/
theorem claim_C5_counterexample :
    build_coverage_index w5_idx w5_anns (some []) (some [w5_g])
      sentenceType groupType = .ok w5_idx2 ∧
    ¬ ((w5_g.tid ∈ w5_cov "a0") ↔
      (∀ m ∈ w5_g.members, ∀ a ∈ w5_anns, a.tid = m → inSpanP a.span ⟨0, 2⟩)) :=
  ⟨rfl, by decide⟩

theorem claim_C5_amended_witness :
    (("l0" ∈ w5w_cov "s0") ↔ (inSpanP ⟨1, 2⟩ ⟨0, 2⟩ ∧ inSpanP ⟨0, 1⟩ ⟨0, 2⟩)) ∧
    (("g0" ∈ w5w_cov "s0") ↔
      ∀ m ∈ ["t0", "t1"], ∀ a ∈ w5w_anns, a.tid = m → inSpanP a.span ⟨0, 2⟩) ∧
    "l0" ∈ w5w_cov "s0" ∧ "g0" ∈ w5w_cov "s0" := by
  have h := claim_C5_amended w5w_idx w5w_anns w5w_L w5w_G sentenceType entryType
    w5w_idx2 w5w_cov rfl rfl rfl rfl rfl rfl rfl
    (by decide) (by decide) (by decide) (by decide) (by decide) (by decide)
    (fun h2 _ => Bool.noConfusion h2) (fun h2 _ => Bool.noConfusion h2)
    rfl rfl
    ⟨"s0", "Sentence", "c", ⟨0, 2⟩⟩ (by decide) (by decide)
  refine ⟨?_, ?_, by decide, by decide⟩
  · exact h.1 ⟨"l0", "Link", "c", "t0", "t1"⟩ (by decide) rfl rfl
      ⟨"t1", "Token", "c", ⟨1, 2⟩⟩ (by decide)
      ⟨"t0", "Token", "c", ⟨0, 1⟩⟩ (by decide) rfl rfl
  · exact h.2 ⟨"g0", "Group", "c", ["t0", "t1"]⟩ (by decide) rfl rfl (by decide)


/-- Claim C9: an empty-member Group (i) always tests as *not* contained in
any span with non-negative begin, because the derived bounds default to
`[-1, -1)`; (ii) is nevertheless admitted by `add_entry` without error (the
store grows by one group); and (iii) is excluded from every coverage set
built over a well-formed store. -/
theorem claim_C9 :
    (∀ (eIdx : String → Option Entry) (g : Group) (s : Span), g.members = [] →
      0 ≤ s.begin → inSpanE eIdx (.groupE g) s = .ok false) ∧
    (∀ (pack : DataPack) (tid0 : Option String) (ty comp : String),
      pack.groups.find? (fun g => groupEq g ty []) = none →
      ((add_entry pack (.groupNew tid0 ty comp [])).1).groups.length
        = pack.groups.length + 1) ∧
    (∀ (idx : DataIndex) (anns : List Annotation) (L : List Link) (G : List Group)
      (outer_type inner_type : EntryType) (idx' : DataIndex)
      (cov' : String → List String),
      idx.link_index_switch = false → idx.group_index_switch = false →
      idx.link_child_index = (fun _ => []) → idx.link_parent_index = (fun _ => []) →
      idx.group_index = (fun _ => []) →
      idx.entry_index = storeLookup anns L G →
      idx.coverage_index (outer_type.name ++ "-to-" ++ inner_type.name) = none →
      anns.Pairwise (fun x y => lexLe x.span y.span) →
      (∀ a ∈ anns, wfSpan a.span) →
      (∀ a ∈ anns, 0 ≤ a.span.begin) →
      (AllTids anns L G).Nodup →
      (∀ l ∈ L, (∃ a ∈ anns, a.tid = l.child) ∧ (∃ a ∈ anns, a.tid = l.parent)) →
      (∀ g ∈ G, ∀ m ∈ g.members, ∃ a ∈ anns, a.tid = m) →
      (inner_type.includesLink = false → ∀ l, inner_type.mem (.linkE l) = false) →
      (inner_type.includesGroup = false → ∀ g, inner_type.mem (.groupE g) = false) →
      build_coverage_index idx anns (some L) (some G) outer_type inner_type
        = .ok idx' →
      idx'.coverage_index (outer_type.name ++ "-to-" ++ inner_type.name)
        = some cov' →
      ∀ g ∈ G, g.members = [] →
      ∀ O ∈ anns, outer_type.mem (.annE O) = true → g.tid ∉ cov' O.tid) := by
  refine ⟨?_, ?_, ?_⟩
  · intro eIdx g s hemp hS
    exact inSpanE_groupE_empty eIdx g s hemp hS
  · intro pack tid0 ty comp hfind
    simp only [add_entry, hfind]
    simp
  · intro idx anns L G outer_type inner_type idx' cov' hswL hswG hfc hfp hfg heidx
      hcov0 hsorted hwf hpos hnd hL hG hcohL hcohG hok hcov' g hg hemp O hO hpO hmem
    rw [build_fresh_char idx anns L G outer_type inner_type idx' cov' hswL hswG hfc
      hfp hfg heidx hcov0 hsorted hwf hpos hnd hL hG hcohL hcohG hok hcov' O hO hpO
      g.tid] at hmem
    have hdisj := List.disjoint_of_nodup_append hnd
    have hndRest := hnd.of_append_right
    have hdisjLG := List.disjoint_of_nodup_append hndRest
    have groupInj : ∀ x ∈ G, ∀ y ∈ G, x.tid = y.tid → x = y :=
      List.inj_on_of_nodup_map hndRest.of_append_right
    rcases hmem with ⟨a, ha, _, _, htid⟩ | ⟨l2, hl2, _, htid, _⟩ |
      ⟨g2, hg2, _, htid, hne, _⟩
    · exact absurd (htid ▸ List.mem_map_of_mem Group.tid hg)
        (fun hm => hdisj (List.mem_map_of_mem Annotation.tid ha)
          (List.mem_append_right _ hm))
    · have hl2L : l2 ∈ L := by
        rcases hil : inner_type.includesLink with _ | _ <;> rw [hil] at hl2
        · simp at hl2
        · simpa using hl2
      exact absurd (htid ▸ List.mem_map_of_mem Group.tid hg)
        (hdisjLG (List.mem_map_of_mem Link.tid hl2L))
    · have hg2G : g2 ∈ G := by
        rcases hig : inner_type.includesGroup with _ | _ <;> rw [hig] at hg2
        · simp at hg2
        · simpa using hg2
      obtain rfl : g2 = g := groupInj g2 hg2G g hg htid
      exact hne hemp

theorem claim_C9_witness :
    inSpanE (fun _ => none) (.groupE w5_g) ⟨0, 2⟩ = .ok false ∧
    ((add_entry emptyDataPack (.groupNew none "Group" "c" [])).1).groups.length = 1 ∧
    "g0" ∉ w5_cov "a0" := by
  refine ⟨?_, ?_, ?_⟩
  · exact claim_C9.1 (fun _ => none) w5_g ⟨0, 2⟩ rfl (by decide)
  · exact claim_C9.2.1 emptyDataPack none "Group" "c" rfl
  · exact claim_C9.2.2 w5_idx w5_anns [] [w5_g] sentenceType groupType w5_idx2 w5_cov
      rfl rfl rfl rfl rfl rfl rfl
      (by decide) (by decide) (by decide) (by decide) (by simp) (by decide)
      (fun _ l => rfl) (fun h2 _ => Bool.noConfusion h2)
      rfl rfl
      w5_g (by decide) rfl
      ⟨"a0", "Sentence", "c", ⟨0, 2⟩⟩ (by decide) (by decide)


theorem SemCovStore_mono {anns : List Annotation} {Ld Lf : List Link}
    {Gd Gf : List Group} {pd pf : Entry → Bool} {O : Annotation} {t : String}
    (hLsub : Ld ⊆ Lf) (hGsub : Gd ⊆ Gf)
    (hpred : ∀ e, pd e = true → pf e = true) :
    SemCovStore anns Ld Gd pd O t → SemCovStore anns Lf Gf pf O t := by
  rintro (⟨a, ha, hp, hin, htid⟩ | ⟨l, hl, hp, htid, hrest⟩ | ⟨g, hg, hp, htid, hrest⟩)
  · exact Or.inl ⟨a, ha, hpred _ hp, hin, htid⟩
  · exact Or.inr (Or.inl ⟨l, hLsub hl, hpred _ hp, htid, hrest⟩)
  · exact Or.inr (Or.inr ⟨g, hGsub hg, hpred _ hp, htid, hrest⟩)

/-- Claim C2 (amended): when `get_coverage_index(T1, T2)` is answered by a
cached fallback tier whose map was built (from a fresh index state) for a
looser outer/inner type pair over the same store, the returned map assigns to
each outer annotation of type `T1` a *superset* of the id set that a direct
fresh build of the exact `(T1, T2)` index produces — not necessarily the same
set. -/
theorem claim_C2_amended
    (anns : List Annotation) (L : List Link) (G : List Group)
    (idxD idxF : DataIndex) (T1 T2 To2 Ti2 : EntryType)
    (idxD2 idxF2 idxQ : DataIndex) (covD covF : String → List String)
    (hsorted : anns.Pairwise (fun x y => lexLe x.span y.span))
    (hwf : ∀ a ∈ anns, wfSpan a.span)
    (hpos : ∀ a ∈ anns, 0 ≤ a.span.begin)
    (hnd : (AllTids anns L G).Nodup)
    (hL : ∀ l ∈ L, (∃ a ∈ anns, a.tid = l.child) ∧ (∃ a ∈ anns, a.tid = l.parent))
    (hG : ∀ g ∈ G, ∀ m ∈ g.members, ∃ a ∈ anns, a.tid = m)
    -- the direct, exact (T1, T2) build from a fresh index state
    (hDswL : idxD.link_index_switch = false) (hDswG : idxD.group_index_switch = false)
    (hDfc : idxD.link_child_index = fun _ => [])
    (hDfp : idxD.link_parent_index = fun _ => [])
    (hDfg : idxD.group_index = fun _ => [])
    (hDeidx : idxD.entry_index = storeLookup anns L G)
    (hDcov0 : idxD.coverage_index (T1.name ++ "-to-" ++ T2.name) = none)
    (hcohL : T2.includesLink = false → ∀ l, T2.mem (.linkE l) = false)
    (hcohG : T2.includesGroup = false → ∀ g, T2.mem (.groupE g) = false)
    (hokD : build_coverage_index idxD anns (some L) (some G) T1 T2 = .ok idxD2)
    (hcovD : idxD2.coverage_index (T1.name ++ "-to-" ++ T2.name) = some covD)
    -- the cached fallback tier: built for the looser pair (To2, Ti2)
    (hFswL : idxF.link_index_switch = false) (hFswG : idxF.group_index_switch = false)
    (hFfc : idxF.link_child_index = fun _ => [])
    (hFfp : idxF.link_parent_index = fun _ => [])
    (hFfg : idxF.group_index = fun _ => [])
    (hFeidx : idxF.entry_index = storeLookup anns L G)
    (hFcov0 : idxF.coverage_index (To2.name ++ "-to-" ++ Ti2.name) = none)
    (hcohLf : Ti2.includesLink = false → ∀ l, Ti2.mem (.linkE l) = false)
    (hcohGf : Ti2.includesGroup = false → ∀ g, Ti2.mem (.groupE g) = false)
    (hokF : build_coverage_index idxF anns (some L) (some G) To2 Ti2 = .ok idxF2)
    (hcovF : idxF2.coverage_index (To2.name ++ "-to-" ++ Ti2.name) = some covF)
    -- the query is answered by this cached map
    (hcached : getCoverageIndexCached idxQ T1.name T2.name = some covF)
    -- the fallback pair is looser than the exact pair
    (hsubO : ∀ a : Annotation, T1.mem (.annE a) = true → To2.mem (.annE a) = true)
    (hsubI : ∀ e : Entry, T2.mem e = true → Ti2.mem e = true)
    (hsubFL : T2.includesLink = true → Ti2.includesLink = true)
    (hsubFG : T2.includesGroup = true → Ti2.includesGroup = true) :
    ∀ O ∈ anns, T1.mem (.annE O) = true → ∀ t, t ∈ covD O.tid → t ∈ covF O.tid := by
  intro O hO hpO t ht
  rw [build_fresh_char idxD anns L G T1 T2 idxD2 covD hDswL hDswG hDfc hDfp hDfg
    hDeidx hDcov0 hsorted hwf hpos hnd hL hG hcohL hcohG hokD hcovD O hO hpO t] at ht
  rw [build_fresh_char idxF anns L G To2 Ti2 idxF2 covF hFswL hFswG hFfc hFfp hFfg
    hFeidx hFcov0 hsorted hwf hpos hnd hL hG hcohLf hcohGf hokF hcovF O hO
    (hsubO O hpO) t]
  refine SemCovStore_mono ?_ ?_ hsubI ht
  · rcases h2 : T2.includesLink with _ | _
    · simp
    · rw [hsubFL h2]
      simp
  · rcases h2 : T2.includesGroup with _ | _
    · simp
    · rw [hsubFG h2]
      simp

/-- Claim C2, counterexample: with the fully generic `Annotation-to-Entry`
index cached, `get_coverage_index(Sentence, Token)` is answered by that
fallback tier, whose set for the sentence `s0` contains `s0` itself — an id a
direct `Sentence-to-Token` build (here `w1_cov`) never returns.  The fallback
mapping is therefore not "exactly the same id set". -/
theorem claim_C2_counterexample :
    getCoverageIndexCached w2_idx2 "Sentence" "Token" = some w2_covF ∧
    build_coverage_index w1_idx w1_anns (some []) (some []) sentenceType tokenType
      = .ok w1_idx2 ∧
    "s0" ∈ w2_covF "s0" ∧ "s0" ∉ w1_cov "s0" :=
  ⟨rfl, rfl, by decide, by decide⟩

theorem claim_C2_amended_witness :
    ("t0" ∈ w1_cov "s0" → "t0" ∈ w2_covF "s0") ∧ "t0" ∈ w1_cov "s0" := by
  constructor
  · exact claim_C2_amended w1_anns [] [] w1_idx w1_idx sentenceType tokenType
      annotationType entryType w1_idx2 w2_idx2 w2_idx2 w1_cov w2_covF
      (by decide) (by decide) (by decide) (by decide) (by simp) (by simp)
      rfl rfl rfl rfl rfl rfl rfl
      (fun _ l => rfl) (fun _ g => rfl)
      rfl rfl
      rfl rfl rfl rfl rfl rfl rfl
      (fun h2 _ => Bool.noConfusion h2) (fun h2 _ => Bool.noConfusion h2)
      rfl rfl
      rfl
      (fun a _ => rfl) (fun e _ => rfl)
      (fun h2 => rfl) (fun h2 => rfl)
      ⟨"s0", "Sentence", "c", ⟨0, 2⟩⟩ (by decide) (by decide) "t0"
  · decide


/-! ### Admission -/

/-- Claim C3 (code quirk, evaluated): on a fresh store, admitting a Token and
then a Sentence — both without caller-supplied ids — assigns the **same** tid
`"0"` to both, because `add_entry` draws ids from per-type-name counters;
both entries are stored, so the store's tids are not pairwise distinct. -/
theorem claim_C3_code_bug :
    (add_entry emptyDataPack (.annNew none "Token" "c" ⟨0, 1⟩)).2 = "0" ∧
    (add_entry (add_entry emptyDataPack (.annNew none "Token" "c" ⟨0, 1⟩)).1
      (.annNew none "Sentence" "c" ⟨0, 2⟩)).2 = "0" ∧
    ((add_entry (add_entry emptyDataPack (.annNew none "Token" "c" ⟨0, 1⟩)).1
      (.annNew none "Sentence" "c" ⟨0, 2⟩)).1).annotations.length = 2 ∧
    ¬ (((add_entry (add_entry emptyDataPack (.annNew none "Token" "c" ⟨0, 1⟩)).1
      (.annNew none "Sentence" "c" ⟨0, 2⟩)).1).annotations.map
        Annotation.tid).Nodup := by
  decide

theorem find?_sortedInsert {p : Annotation → Bool} {l : List Annotation}
    {a : Annotation} (hnone : l.find? p = none) (hpa : p a = true) :
    (sortedInsert a l).find? p = some a := by
  induction l with
  | nil => simp [sortedInsert, List.find?_cons_of_pos _ hpa]
  | cons b rest ih =>
    rw [List.find?_cons] at hnone
    rcases hpb : p b with _ | _ <;> rw [hpb] at hnone
    · rw [sortedInsert]
      split
      · rw [List.find?_cons_of_neg _ (by simp [hpb]), ih hnone]
      · rw [List.find?_cons_of_pos _ hpa]
    · exact Option.noConfusion hnone

theorem find?_append_none {α : Type} {p : α → Bool} {l1 : List α} (l2 : List α)
    (h : l1.find? p = none) : (l1 ++ l2).find? p = l2.find? p := by
  induction l1 with
  | nil => simp
  | cons b rest ih =>
    rw [List.find?_cons] at h
    rcases hpb : p b with _ | _ <;> rw [hpb] at h
    · rw [List.cons_append, List.find?_cons_of_neg _ (by simp [hpb]), ih h]
    · exact Option.noConfusion h

theorem memberSetEq_refl (ms : List String) : memberSetEq ms ms = true := by
  rw [memberSetEq]
  have hall : ms.all (fun m => ms.contains m) = true := by
    rw [List.all_eq_true]
    intro m hm
    exact List.elem_eq_true_of_mem hm
  rw [hall]
  rfl

theorem add_entry_ann_dup (pack : DataPack) (tid0 : Option String)
    (ty comp : String) (span : Span) (a : Annotation)
    (hfind : pack.annotations.find? (fun x => annEq x ty comp span) = some a) :
    add_entry pack (.annNew tid0 ty comp span) = (pack, a.tid) := by
  simp [add_entry, hfind]

theorem add_entry_link_dup (pack : DataPack) (tid0 : Option String)
    (ty comp par ch : String) (l : Link)
    (hfind : pack.links.find? (fun x => linkEq x ty par ch) = some l) :
    add_entry pack (.linkNew tid0 ty comp par ch) = (pack, l.tid) := by
  simp [add_entry, hfind]

theorem add_entry_group_dup (pack : DataPack) (tid0 : Option String)
    (ty comp : String) (ms : List String) (g : Group)
    (hfind : pack.groups.find? (fun x => groupEq x ty ms) = some g) :
    add_entry pack (.groupNew tid0 ty comp ms) = (pack, g.tid) := by
  simp [add_entry, hfind]

/-- Claim C4: admitting an entry equal (by variant-specific equality) to an
already-stored entry returns the stored entry's tid and changes nothing: the
returned pack is the argument pack itself, so the entry collections, all
indexes and the per-type id counters are untouched.  Consequently admitting
the same entry twice yields the same tid both times and the second call is a
no-op (entry count unchanged). -/
theorem claim_C4 :
    (∀ (pack : DataPack) (tid0 : Option String) (ty comp : String) (span : Span)
      (a : Annotation),
      pack.annotations.find? (fun x => annEq x ty comp span) = some a →
      add_entry pack (.annNew tid0 ty comp span) = (pack, a.tid)) ∧
    (∀ (pack : DataPack) (tid0 : Option String) (ty comp par ch : String) (l : Link),
      pack.links.find? (fun x => linkEq x ty par ch) = some l →
      add_entry pack (.linkNew tid0 ty comp par ch) = (pack, l.tid)) ∧
    (∀ (pack : DataPack) (tid0 : Option String) (ty comp : String)
      (ms : List String) (g : Group),
      pack.groups.find? (fun x => groupEq x ty ms) = some g →
      add_entry pack (.groupNew tid0 ty comp ms) = (pack, g.tid)) ∧
    (∀ (pack : DataPack) (e : NewEntry),
      add_entry (add_entry pack e).1 e = add_entry pack e) := by
  refine ⟨add_entry_ann_dup, add_entry_link_dup, add_entry_group_dup, ?_⟩
  intro pack e
  rcases e with ⟨tid0, ty, comp, span⟩ | ⟨tid0, ty, comp, par, ch⟩ | ⟨tid0, ty, comp, ms⟩
  · rcases hfind : pack.annotations.find? (fun x => annEq x ty comp span) with _ | a
    · have hfind2 : (sortedInsert
          ⟨tid0.getD (toString (getMeta pack.internal_metas ty).id_counter),
            ty, comp, span⟩ pack.annotations).find?
          (fun x => annEq x ty comp span) = some
          ⟨tid0.getD (toString (getMeta pack.internal_metas ty).id_counter),
            ty, comp, span⟩ :=
        find?_sortedInsert hfind (by simp [annEq])
      simp [add_entry, hfind, hfind2]
    · rw [add_entry_ann_dup pack tid0 ty comp span a hfind]
      exact add_entry_ann_dup pack tid0 ty comp span a hfind
  · rcases hfind : pack.links.find? (fun x => linkEq x ty par ch) with _ | l
    · simp only [add_entry, hfind]
      rw [find?_append_none _ hfind, List.find?_cons_of_pos _ (by simp [linkEq])]
    · rw [add_entry_link_dup pack tid0 ty comp par ch l hfind]
      exact add_entry_link_dup pack tid0 ty comp par ch l hfind
  · rcases hfind : pack.groups.find? (fun x => groupEq x ty ms) with _ | g
    · simp only [add_entry, hfind]
      rw [find?_append_none _ hfind,
        List.find?_cons_of_pos _ (by simp [groupEq, memberSetEq_refl])]
    · rw [add_entry_group_dup pack tid0 ty comp ms g hfind]
      exact add_entry_group_dup pack tid0 ty comp ms g hfind

theorem claim_C4_witness :
    add_entry ((add_entry emptyDataPack (.annNew none "Token" "c" ⟨0, 1⟩)).1)
        (.annNew none "Token" "c" ⟨0, 1⟩)
      = add_entry emptyDataPack (.annNew none "Token" "c" ⟨0, 1⟩) ∧
    (add_entry ((add_entry emptyDataPack (.annNew none "Token" "c" ⟨0, 1⟩)).1)
        (.annNew (some "ignored") "Token" "c" ⟨0, 1⟩)
      = ((add_entry emptyDataPack (.annNew none "Token" "c" ⟨0, 1⟩)).1, "0")) := by
  constructor
  · exact claim_C4.2.2.2 emptyDataPack (.annNew none "Token" "c" ⟨0, 1⟩)
  · exact claim_C4.1 ((add_entry emptyDataPack (.annNew none "Token" "c" ⟨0, 1⟩)).1)
      (some "ignored") "Token" "c" ⟨0, 1⟩ ⟨"0", "Token", "c", ⟨0, 1⟩⟩ (by decide)


/-! ### Lazy structural-index activation -/

theorem foldl_basicStep_fields :
    ∀ (es : List Entry) (idx0 : DataIndex),
      (es.foldl basicIndexStep idx0).group_index = idx0.group_index ∧
      (es.foldl basicIndexStep idx0).link_child_index = idx0.link_child_index ∧
      (es.foldl basicIndexStep idx0).link_parent_index = idx0.link_parent_index ∧
      (es.foldl basicIndexStep idx0).coverage_index = idx0.coverage_index ∧
      (es.foldl basicIndexStep idx0).group_index_switch = idx0.group_index_switch ∧
      (es.foldl basicIndexStep idx0).link_index_switch = idx0.link_index_switch ∧
      (es.foldl basicIndexStep idx0).coverage_index_switch
        = idx0.coverage_index_switch := by
  intro es
  induction es with
  | nil => intro idx0; exact ⟨rfl, rfl, rfl, rfl, rfl, rfl, rfl⟩
  | cons e0 es' ih =>
    intro idx0
    rw [List.foldl_cons]
    exact ih (basicIndexStep idx0 e0)

theorem update_basic_index_link_switch (idx : DataIndex) (es : List Entry) :
    (update_basic_index idx es).link_index_switch = idx.link_index_switch :=
  (foldl_basicStep_fields es idx).2.2.2.2.2.1

theorem update_basic_index_group_switch (idx : DataIndex) (es : List Entry) :
    (update_basic_index idx es).group_index_switch = idx.group_index_switch :=
  (foldl_basicStep_fields es idx).2.2.2.2.1

theorem add_entry_link_switch_mono (pack : DataPack) (e : NewEntry)
    (h : pack.index.link_index_switch = true) :
    ((add_entry pack e).1).index.link_index_switch = true := by
  rcases e with ⟨tid0, ty, comp, span⟩ | ⟨tid0, ty, comp, par, ch⟩ | ⟨tid0, ty, comp, ms⟩
  · rcases hfind : pack.annotations.find? (fun x => annEq x ty comp span) with _ | a <;>
      simp only [add_entry, hfind]
    · rw [update_basic_index_link_switch]
      exact h
    · exact h
  · rcases hfind : pack.links.find? (fun x => linkEq x ty par ch) with _ | l <;>
      simp only [add_entry, hfind]
    · rw [if_pos (by rw [update_basic_index_link_switch]; exact h)]
      exact update_link_index_switch _ _
    · exact h
  · rcases hfind : pack.groups.find? (fun x => groupEq x ty ms) with _ | g <;>
      simp only [add_entry, hfind]
    · split
      · rw [show ∀ (i : DataIndex) (gs : List Group),
            (update_group_index i gs).link_index_switch = i.link_index_switch from
            fun i gs => update_group_index_link_switch i gs,
          update_basic_index_link_switch]
        exact h
      · rw [update_basic_index_link_switch]
        exact h
    · exact h

theorem add_entry_group_switch_mono (pack : DataPack) (e : NewEntry)
    (h : pack.index.group_index_switch = true) :
    ((add_entry pack e).1).index.group_index_switch = true := by
  rcases e with ⟨tid0, ty, comp, span⟩ | ⟨tid0, ty, comp, par, ch⟩ | ⟨tid0, ty, comp, ms⟩
  · rcases hfind : pack.annotations.find? (fun x => annEq x ty comp span) with _ | a <;>
      simp only [add_entry, hfind]
    · rw [update_basic_index_group_switch]
      exact h
    · exact h
  · rcases hfind : pack.links.find? (fun x => linkEq x ty par ch) with _ | l <;>
      simp only [add_entry, hfind]
    · split
      · rw [update_link_index_group_switch, update_basic_index_group_switch]
        exact h
      · rw [update_basic_index_group_switch]
        exact h
    · exact h
  · rcases hfind : pack.groups.find? (fun x => groupEq x ty ms) with _ | g <;>
      simp only [add_entry, hfind]
    · rw [if_pos (by rw [update_basic_index_group_switch]; exact h)]
      exact update_group_index_switch _ _
    · exact h

theorem applyOp_link_switch_mono (pack : DataPack) (op : PackOp)
    (h : pack.index.link_index_switch = true) :
    (applyOp pack op).index.link_index_switch = true := by
  rcases op with e | ls | gs | ⟨fs, c, t⟩
  · exact add_entry_link_switch_mono pack e h
  · exact update_link_index_switch _ _
  · show (update_group_index pack.index gs).link_index_switch = true
    rw [update_group_index_link_switch]
    exact h
  · exact h

theorem applyOp_group_switch_mono (pack : DataPack) (op : PackOp)
    (h : pack.index.group_index_switch = true) :
    (applyOp pack op).index.group_index_switch = true := by
  rcases op with e | ls | gs | ⟨fs, c, t⟩
  · exact add_entry_group_switch_mono pack e h
  · show (update_link_index pack.index ls).group_index_switch = true
    rw [update_link_index_group_switch]
    exact h
  · exact update_group_index_switch _ _
  · exact h

/-- Claim C6: once `update_link_index` (resp. `update_group_index`) has
flipped its switch, the switch stays set across every subsequent store
operation; with the switch set, every newly admitted Link (resp. Group) is
immediately entered into the structural index under its child/parent keys
(resp. each member key); with both switches off, admission leaves all three
structural index maps untouched. -/
theorem claim_C6 :
    (∀ (pack : DataPack) (ops : List PackOp),
      (pack.index.link_index_switch = true →
        (applyOps pack ops).index.link_index_switch = true) ∧
      (pack.index.group_index_switch = true →
        (applyOps pack ops).index.group_index_switch = true)) ∧
    (∀ (pack : DataPack) (tid0 : Option String) (ty comp par ch : String),
      pack.index.link_index_switch = true →
      pack.links.find? (fun x => linkEq x ty par ch) = none →
      (add_entry pack (.linkNew tid0 ty comp par ch)).2 ∈
        ((add_entry pack (.linkNew tid0 ty comp par ch)).1).index.link_child_index ch ∧
      (add_entry pack (.linkNew tid0 ty comp par ch)).2 ∈
        ((add_entry pack (.linkNew tid0 ty comp par ch)).1).index.link_parent_index par) ∧
    (∀ (pack : DataPack) (tid0 : Option String) (ty comp : String) (ms : List String),
      pack.index.group_index_switch = true →
      pack.groups.find? (fun x => groupEq x ty ms) = none →
      ∀ m ∈ ms, (add_entry pack (.groupNew tid0 ty comp ms)).2 ∈
        ((add_entry pack (.groupNew tid0 ty comp ms)).1).index.group_index m) ∧
    (∀ (pack : DataPack) (e : NewEntry),
      pack.index.link_index_switch = false →
      pack.index.group_index_switch = false →
      ((add_entry pack e).1).index.link_child_index = pack.index.link_child_index ∧
      ((add_entry pack e).1).index.link_parent_index = pack.index.link_parent_index ∧
      ((add_entry pack e).1).index.group_index = pack.index.group_index) := by
  refine ⟨?_, ?_, ?_, ?_⟩
  · intro pack ops
    constructor
    · induction ops generalizing pack with
      | nil => intro h; exact h
      | cons op ops' ih =>
        intro h
        exact ih (applyOp pack op) (applyOp_link_switch_mono pack op h)
    · induction ops generalizing pack with
      | nil => intro h; exact h
      | cons op ops' ih =>
        intro h
        exact ih (applyOp pack op) (applyOp_group_switch_mono pack op h)
  · intro pack tid0 ty comp par ch hsw hfind
    simp only [add_entry, hfind]
    rw [if_pos (by rw [update_basic_index_link_switch]; exact hsw)]
    constructor
    · exact (update_link_index_child_mem _ _ _ _).mpr
        (Or.inr ⟨_, List.mem_cons_self _ _, rfl, rfl⟩)
    · exact (update_link_index_parent_mem _ _ _ _).mpr
        (Or.inr ⟨_, List.mem_cons_self _ _, rfl, rfl⟩)
  · intro pack tid0 ty comp ms hsw hfind m hm
    simp only [add_entry, hfind]
    rw [if_pos (by rw [update_basic_index_group_switch]; exact hsw)]
    exact (update_group_index_mem _ _ _ _).mpr
      (Or.inr ⟨_, List.mem_cons_self _ _, rfl, hm⟩)
  · intro pack e hswL hswG
    rcases e with ⟨tid0, ty, comp, span⟩ | ⟨tid0, ty, comp, par, ch⟩ | ⟨tid0, ty, comp, ms⟩
    · rcases hfind : pack.annotations.find? (fun x => annEq x ty comp span) with _ | a <;>
        simp only [add_entry, hfind]
      · exact ⟨(foldl_basicStep_fields _ _).2.1, (foldl_basicStep_fields _ _).2.2.1,
          (foldl_basicStep_fields _ _).1⟩
      · exact ⟨trivial, trivial, trivial⟩
    · rcases hfind : pack.links.find? (fun x => linkEq x ty par ch) with _ | l <;>
        simp only [add_entry, hfind]
      · rw [if_neg (by rw [update_basic_index_link_switch, hswL]; exact Bool.false_ne_true)]
        exact ⟨(foldl_basicStep_fields _ _).2.1, (foldl_basicStep_fields _ _).2.2.1,
          (foldl_basicStep_fields _ _).1⟩
      · exact ⟨trivial, trivial, trivial⟩
    · rcases hfind : pack.groups.find? (fun x => groupEq x ty ms) with _ | g <;>
        simp only [add_entry, hfind]
      · rw [if_neg (by rw [update_basic_index_group_switch, hswG]; exact Bool.false_ne_true)]
        exact ⟨(foldl_basicStep_fields _ _).2.1, (foldl_basicStep_fields _ _).2.2.1,
          (foldl_basicStep_fields _ _).1⟩
      · exact ⟨trivial, trivial, trivial⟩


theorem claim_C6_witness :
    (applyOps w6_pack [.addOp (.annNew none "Token" "c" ⟨0, 1⟩),
      .recFieldsOp [] "c" "Token"]).index.link_index_switch = true ∧
    (add_entry w6_pack (.linkNew none "Link" "c" "p0" "c0")).2 ∈
      ((add_entry w6_pack
        (.linkNew none "Link" "c" "p0" "c0")).1).index.link_child_index "c0" ∧
    (∀ m ∈ ["m0", "m1"],
      (add_entry w6_packG (.groupNew none "Group" "c" ["m0", "m1"])).2 ∈
        ((add_entry w6_packG
          (.groupNew none "Group" "c" ["m0", "m1"])).1).index.group_index m) ∧
    ((add_entry emptyDataPack
      (.linkNew none "Link" "c" "p0" "c0")).1).index.link_child_index
        = emptyDataPack.index.link_child_index := by
  refine ⟨?_, ?_, ?_, ?_⟩
  · exact (claim_C6.1 w6_pack _).1 rfl
  · exact (claim_C6.2.1 w6_pack none "Link" "c" "p0" "c0" rfl rfl).1
  · exact claim_C6.2.2.1 w6_packG none "Group" "c" ["m0", "m1"] rfl rfl
  · exact (claim_C6.2.2.2 emptyDataPack (.linkNew none "Link" "c" "p0" "c0") rfl rfl).1


/-- Claim C8, counterexample: after an admission has created the `"Token"`
metadata record (with no default component set), `record_fields` does **not**
establish `"tagger"` as the default component — the source only sets a
default when the type has no metadata record at all, not when the default is
merely unset. -/
theorem claim_C8_counterexample :
    (w8_pack0.internal_metas "Token").isSome = true ∧
    defaultComponentOf w8_pack0 "Token" = none ∧
    defaultComponentOf w8_pack "Token" ≠ some "tagger" := by
  decide

/-- Claim C8 (amended): `record_fields(fields, component, entry_type)`
establishes `component` as the default component for `entry_type` **only
when no internal metadata record exists yet** for that type; if a record was
already created (for instance by an earlier entry admission), the default
component is left unchanged — even when it is still unset. -/
theorem claim_C8_amended :
    (∀ (pack : DataPack) (fields : List String) (component entry_type : String),
      pack.internal_metas entry_type = none →
      defaultComponentOf (record_fields pack fields component entry_type) entry_type
        = some component) ∧
    (∀ (pack : DataPack) (fields : List String) (component entry_type : String),
      (pack.internal_metas entry_type).isSome = true →
      defaultComponentOf (record_fields pack fields component entry_type) entry_type
        = defaultComponentOf pack entry_type) := by
  constructor
  · intro pack fields component entry_type hnone
    simp [defaultComponentOf, record_fields, hnone]
  · intro pack fields component entry_type hsome
    obtain ⟨meta0, hmeta0⟩ := Option.isSome_iff_exists.mp hsome
    simp [defaultComponentOf, record_fields, hmeta0]

theorem claim_C8_amended_witness :
    defaultComponentOf (record_fields emptyDataPack ["lemma"] "tagger" "Token") "Token"
      = some "tagger" ∧
    defaultComponentOf w8_pack "Token" = defaultComponentOf w8_pack0 "Token" ∧
    defaultComponentOf w8_pack0 "Token" = none := by
  refine ⟨?_, ?_, by decide⟩
  · exact claim_C8_amended.1 emptyDataPack ["lemma"] "tagger" "Token" rfl
  · exact claim_C8_amended.2 w8_pack0 ["lemma"] "tagger" "Token" (by decide)


/-! ### `get_entries` on an empty store -/

/-- Claim C10: on a pack whose annotation collection is empty, `get_entries`
with no range annotation fails with the `IndexError` from reading
`annotations[-1]`, for **every** requested entry type — Link and Group types
included — instead of yielding an empty sequence. -/
theorem claim_C10 (pack : DataPack) (entry_type range_type : EntryType)
    (component : Option String) (hempty : pack.annotations = []) :
    get_entries pack entry_type range_type none component
      = .error "IndexError: list index out of range" := by
  simp [get_entries, hempty, bind_error_ex]

theorem claim_C10_witness :
    get_entries emptyDataPack linkType sentenceType none none
      = .error "IndexError: list index out of range" ∧
    get_entries emptyDataPack groupType sentenceType none (some "c")
      = .error "IndexError: list index out of range" ∧
    get_entries emptyDataPack tokenType sentenceType none none
      = .error "IndexError: list index out of range" := by
  refine ⟨?_, ?_, ?_⟩
  · exact claim_C10 emptyDataPack linkType sentenceType none rfl
  · exact claim_C10 emptyDataPack groupType sentenceType (some "c") rfl
  · exact claim_C10 emptyDataPack tokenType sentenceType none rfl


theorem groupBoundsLoop_ok (eIdx : String → Option Entry) :
    ∀ (ms : List String), (∀ m ∈ ms, ∃ a, eIdx m = some (.annE a)) →
      ∀ (b0 e0 : Int), ∃ p, groupBoundsLoop eIdx ms b0 e0 = .ok p := by
  intro ms
  induction ms with
  | nil => intro _ b0 e0; exact ⟨(b0, e0), rfl⟩
  | cons m0 rest ih =>
    intro hres b0 e0
    obtain ⟨a, ha⟩ := hres m0 (List.mem_cons_self _ _)
    obtain ⟨p, hp⟩ := ih (fun m hm => hres m (List.mem_cons_of_mem _ hm))
      (min (if b0 = -1 then a.span.begin else b0) a.span.begin) (max e0 a.span.end_)
    refine ⟨p, ?_⟩
    rw [groupBoundsLoop, ha]
    exact hp

theorem inSpanE_ok_of (eIdx : String → Option Entry) (e : Entry)
    (h : EntryOk eIdx e) (s : Span) : ∃ b, inSpanE eIdx e s = .ok b := by
  rcases e with a | l | g | _
  · exact ⟨_, rfl⟩
  · obtain ⟨⟨ca, hca⟩, ⟨pa, hpa⟩⟩ := h
    refine ⟨decide (min ca.span.begin pa.span.begin ≥ s.begin ∧
      max ca.span.end_ pa.span.end_ ≤ s.end_), ?_⟩
    rw [inSpanE, hca, hpa]
    rfl
  · obtain ⟨p, hp⟩ := groupBoundsLoop_ok eIdx g.members h (-1) (-1)
    obtain ⟨pb, pe⟩ := p
    refine ⟨decide (pb ≥ s.begin ∧ pe ≤ s.end_), ?_⟩
    rw [inSpanE, hp]
    rfl
  · exact absurd h (by simp [EntryOk])

theorem probeIds_ok (C : CoverCtx) (outer : Annotation) :
    ∀ (ids : List String),
      (∀ id ∈ ids, C.inner_pred (bracketEntry C id) = true →
        EntryOk C.entry_index (bracketEntry C id)) →
      ∀ (acc : List String), ∃ acc', probeIds C outer ids acc = .ok acc' := by
  intro ids
  induction ids with
  | nil => intro _ acc; exact ⟨acc, rfl⟩
  | cons id0 rest ih =>
    intro hok acc
    by_cases hpred : C.inner_pred (bracketEntry C id0) = true
    · obtain ⟨b, hb⟩ := inSpanE_ok_of C.entry_index (bracketEntry C id0)
        (hok id0 (List.mem_cons_self _ _) hpred) outer.span
      obtain ⟨acc', hacc'⟩ := ih (fun id hid => hok id (List.mem_cons_of_mem _ hid))
        (if b then List.insert id0 acc else acc)
      refine ⟨acc', ?_⟩
      rw [probeIds, if_pos hpred, hb]
      exact hacc'
    · obtain ⟨acc', hacc'⟩ := ih (fun id hid => hok id (List.mem_cons_of_mem _ hid)) acc
      refine ⟨acc', ?_⟩
      rw [probeIds, if_neg hpred]
      exact hacc'

theorem coveredStep_ok (C : CoverCtx) (outer inner : Annotation)
    (hWF : ProbeWF C) (acc : List String) :
    ∃ acc', coveredStep C outer inner acc = .ok acc' := by
  simp only [coveredStep]
  generalize (if C.inner_pred (Entry.annE inner) = true
    then List.insert inner.tid acc else acc) = acc1
  rcases hfl : C.index_link_as_inner with _ | _ <;>
    simp only [Bool.false_eq_true, if_false, if_true, bind_ok_ex]
  · rcases hfg : C.index_group_as_inner with _ | _ <;>
      simp only [Bool.false_eq_true, if_false, if_true, bind_ok_ex]
    · exact ⟨acc1, rfl⟩
    · obtain ⟨acc2, h2⟩ := probeIds_ok C outer (C.group_index inner.tid)
        (fun id hid => hWF inner.tid id (Or.inr (Or.inr hid))) acc1
      rw [h2]
      exact ⟨acc2, rfl⟩
  · obtain ⟨acc2, h2⟩ := probeIds_ok C outer
      (C.link_child_index inner.tid ++ C.link_parent_index inner.tid)
      (fun id hid => hWF inner.tid id (by
        rcases List.mem_append.mp hid with h | h
        · exact Or.inl h
        · exact Or.inr (Or.inl h))) acc1
    rw [h2]
    simp only [bind_ok_ex]
    rcases hfg : C.index_group_as_inner with _ | _ <;>
      simp only [Bool.false_eq_true, if_false, if_true, bind_ok_ex]
    · exact ⟨acc2, rfl⟩
    · obtain ⟨acc3, h3⟩ := probeIds_ok C outer (C.group_index inner.tid)
        (fun id hid => hWF inner.tid id (Or.inr (Or.inr hid))) acc2
      rw [h3]
      exact ⟨acc3, rfl⟩

theorem scan_ok (C : CoverCtx) (outer : Annotation) (hWF : ProbeWF C) :
    ∀ (cands : List Annotation) (acc : List String),
      ∃ acc', add_covered_entries C outer cands acc = .ok acc' := by
  intro cands
  induction cands with
  | nil => intro acc; exact ⟨acc, rfl⟩
  | cons inner rest ih =>
    intro acc
    rw [add_covered_entries, inSpanE_annE]
    by_cases hin : inSpanP inner.span outer.span
    · rw [decide_eq_true hin]
      simp only [bind_ok_ex, if_true]
      obtain ⟨acc2, h2⟩ := coveredStep_ok C outer inner hWF acc
      obtain ⟨acc', h3⟩ := ih acc2
      rw [h2]
      simp only [bind_ok_ex]
      exact ⟨acc', h3⟩
    · rw [decide_eq_false hin]
      simp only [bind_ok_ex, Bool.false_eq_true, if_false]
      by_cases hov : have_overlap outer inner = true
      · rw [if_pos hov]
        exact ih acc
      · rw [if_neg hov]
        exact ⟨acc, rfl⟩

theorem buildLoop_ok (C : CoverCtx) (p : Annotation → Bool) (hWF : ProbeWF C) :
    ∀ (suffix revPre : List Annotation) (cov : String → List String),
      ∃ cov', buildLoop C p revPre suffix cov = .ok cov' := by
  intro suffix
  induction suffix with
  | nil => intro revPre cov; exact ⟨cov, rfl⟩
  | cons a rest ih =>
    intro revPre cov
    by_cases hpa : p a = true
    · obtain ⟨s1, h1⟩ := scan_ok C a hWF (a :: revPre) (cov a.tid)
      obtain ⟨s2, h2⟩ := scan_ok C a hWF (a :: rest) s1
      obtain ⟨cov', h3⟩ := ih (a :: revPre) (fun t => if t = a.tid then s2 else cov t)
      refine ⟨cov', ?_⟩
      rw [buildLoop, if_pos hpa, h1]
      simp only [bind_ok_ex]
      rw [h2]
      simp only [bind_ok_ex]
      exact h3
    · obtain ⟨cov', h3⟩ := ih (a :: revPre) cov
      refine ⟨cov', ?_⟩
      rw [buildLoop, if_neg hpa]
      exact h3


theorem linkStage_error_iff (idx : DataIndex) (links : Option (List Link))
    (it : EntryType) :
    (∃ e, linkStage idx links it = .error e) ↔
      (it.includesLink = true ∧ idx.link_index_switch = false ∧ links = none) := by
  unfold linkStage
  rcases hil : it.includesLink with _ | _ <;>
    rcases hsw : idx.link_index_switch with _ | _ <;>
    rcases links with _ | L2 <;> simp

theorem linkStage_ok_inv (idx idx1 : DataIndex) (links : Option (List Link))
    (it : EntryType) (h : linkStage idx links it = .ok idx1) :
    idx1 = idx ∨ ∃ L2, links = some L2 ∧ idx1 = update_link_index idx L2 := by
  unfold linkStage at h
  split at h
  · split at h
    · rcases links with _ | L2
      · exact Except.noConfusion h
      · exact Or.inr ⟨L2, rfl, (Except.ok.inj h).symm⟩
    · exact Or.inl (Except.ok.inj h).symm
  · exact Or.inl (Except.ok.inj h).symm

theorem groupStage_error_iff (idx : DataIndex) (groups : Option (List Group))
    (it : EntryType) :
    (∃ e, groupStage idx groups it = .error e) ↔
      (it.includesGroup = true ∧ idx.group_index_switch = false ∧ groups = none) := by
  unfold groupStage
  rcases hig : it.includesGroup with _ | _ <;>
    rcases hsw : idx.group_index_switch with _ | _ <;>
    rcases groups with _ | G2 <;> simp

theorem groupStage_ok_inv (idx idx1 : DataIndex) (groups : Option (List Group))
    (it : EntryType) (h : groupStage idx groups it = .ok idx1) :
    idx1 = idx ∨ ∃ G2, groups = some G2 ∧ idx1 = update_group_index idx G2 := by
  unfold groupStage at h
  split at h
  · split at h
    · rcases groups with _ | G2
      · exact Except.noConfusion h
      · exact Or.inr ⟨G2, rfl, (Except.ok.inj h).symm⟩
    · exact Or.inl (Except.ok.inj h).symm
  · exact Or.inl (Except.ok.inj h).symm

theorem probeWF_update_link (idx : DataIndex) (it : EntryType) (L2 : List Link)
    (h1 : ProbeWF (coverCtxOf idx it)) (h2 : LinksOk idx it.mem L2) :
    ProbeWF (coverCtxOf (update_link_index idx L2) it) := by
  intro t id hmem hpred
  have hent : (update_link_index idx L2).entry_index = idx.entry_index :=
    update_link_index_entry idx L2
  simp only [coverCtxOf, bracketEntry] at hmem hpred ⊢
  rw [hent] at hpred ⊢
  rcases hmem with hc | hp | hg
  · rcases (update_link_index_child_mem idx L2 t id).mp hc with hold | ⟨l, hl, rfl, _⟩
    · exact h1 t id (Or.inl hold) hpred
    · exact h2 l hl hpred
  · rcases (update_link_index_parent_mem idx L2 t id).mp hp with hold | ⟨l, hl, rfl, _⟩
    · exact h1 t id (Or.inr (Or.inl hold)) hpred
    · exact h2 l hl hpred
  · rw [update_link_index_group idx L2] at hg
    exact h1 t id (Or.inr (Or.inr hg)) hpred

theorem probeWF_update_group (idx : DataIndex) (it : EntryType) (G2 : List Group)
    (h1 : ProbeWF (coverCtxOf idx it)) (h2 : GroupsOk idx it.mem G2) :
    ProbeWF (coverCtxOf (update_group_index idx G2) it) := by
  intro t id hmem hpred
  have hent : (update_group_index idx G2).entry_index = idx.entry_index :=
    update_group_index_entry idx G2
  simp only [coverCtxOf, bracketEntry] at hmem hpred ⊢
  rw [hent] at hpred ⊢
  rcases hmem with hc | hp | hg
  · rw [update_group_index_child idx G2] at hc
    exact h1 t id (Or.inl hc) hpred
  · rw [update_group_index_parent idx G2] at hp
    exact h1 t id (Or.inr (Or.inl hp)) hpred
  · rcases (update_group_index_mem idx G2 t id).mp hg with hold | ⟨g, hgm, rfl, _⟩
    · exact h1 t id (Or.inr (Or.inr hold)) hpred
    · exact h2 g hgm hpred

theorem groupsOk_congr {idx idx1 : DataIndex} {pred : Entry → Bool}
    {G2 : List Group} (hent : idx1.entry_index = idx.entry_index)
    (h : GroupsOk idx pred G2) : GroupsOk idx1 pred G2 := by
  intro g hg hpred
  rw [hent] at hpred
  rw [hent]
  exact h g hg hpred

/-- C7: under well-formedness of the pre-existing probe indexes and of the
supplied raw link/group collections, `build_coverage_index` fails with an
error if and only if the inner type can include Link entries while the link
index is inactive and the links argument is absent, or the inner type can
include Group entries while the group index is inactive and the groups
argument is absent; otherwise the build runs to completion. -/
theorem claim_C7 (idx : DataIndex) (anns : List Annotation)
    (links : Option (List Link)) (groups : Option (List Group))
    (ot it : EntryType)
    (hWF : ProbeWF (coverCtxOf idx it))
    (hL : ∀ L2, links = some L2 → LinksOk idx it.mem L2)
    (hG : ∀ G2, groups = some G2 → GroupsOk idx it.mem G2) :
    (∃ e, build_coverage_index idx anns links groups ot it = .error e) ↔
      ((it.includesLink = true ∧ idx.link_index_switch = false ∧ links = none) ∨
       (it.includesGroup = true ∧ idx.group_index_switch = false ∧ groups = none)) := by
  rcases h1 : linkStage idx links it with e1 | idx1
  · constructor
    · intro _
      exact Or.inl ((linkStage_error_iff idx links it).mp ⟨e1, h1⟩)
    · intro _
      refine ⟨e1, ?_⟩
      rw [build_coverage_index, h1]
      simp only [bind_error_ex]
  · have hent1 : idx1.entry_index = idx.entry_index := by
      rcases linkStage_ok_inv idx idx1 links it h1 with rfl | ⟨L2, _, rfl⟩
      · rfl
      · exact update_link_index_entry idx L2
    have hswG1 : idx1.group_index_switch = idx.group_index_switch := by
      rcases linkStage_ok_inv idx idx1 links it h1 with rfl | ⟨L2, _, rfl⟩
      · rfl
      · exact update_link_index_group_switch idx L2
    have hWF1 : ProbeWF (coverCtxOf idx1 it) := by
      rcases linkStage_ok_inv idx idx1 links it h1 with rfl | ⟨L2, hlk, rfl⟩
      · exact hWF
      · exact probeWF_update_link idx it L2 hWF (hL L2 hlk)
    have hnoL : ¬ (it.includesLink = true ∧ idx.link_index_switch = false ∧
        links = none) := by
      intro hc
      obtain ⟨e1, he1⟩ := (linkStage_error_iff idx links it).mpr hc
      rw [h1] at he1
      exact Except.noConfusion he1
    rcases h2 : groupStage idx1 groups it with e2 | idx2
    · constructor
      · intro _
        have hc := (groupStage_error_iff idx1 groups it).mp ⟨e2, h2⟩
        exact Or.inr ⟨hc.1, hswG1 ▸ hc.2.1, hc.2.2⟩
      · intro _
        refine ⟨e2, ?_⟩
        rw [build_coverage_index, h1]
        simp only [bind_ok_ex]
        rw [h2]
        simp only [bind_error_ex]
    · have hWF2 : ProbeWF (coverCtxOf idx2 it) := by
        rcases groupStage_ok_inv idx1 idx2 groups it h2 with rfl | ⟨G2, hgp, rfl⟩
        · exact hWF1
        · exact probeWF_update_group idx1 it G2 hWF1
            (groupsOk_congr hent1 (hG G2 hgp))
      have hnoG : ¬ (it.includesGroup = true ∧ idx.group_index_switch = false ∧
          groups = none) := by
        intro hc
        obtain ⟨e2, he2⟩ := (groupStage_error_iff idx1 groups it).mpr
          ⟨hc.1, hswG1.trans hc.2.1, hc.2.2⟩
        rw [h2] at he2
        exact Except.noConfusion he2
      obtain ⟨cov', hcov⟩ := buildLoop_ok (coverCtxOf idx2 it)
        (fun a => ot.mem (.annE a)) hWF2 anns []
        ((idx2.coverage_index (ot.name ++ "-to-" ++ it.name)).getD (fun _ => []))
      constructor
      · rintro ⟨e, he⟩
        rw [build_coverage_index, h1] at he
        simp only [bind_ok_ex] at he
        rw [h2] at he
        simp only [bind_ok_ex] at he
        rw [show buildCov (coverCtxOf idx2 it) (fun a => ot.mem (.annE a)) anns
            ((idx2.coverage_index (ot.name ++ "-to-" ++ it.name)).getD
              (fun _ => [])) = .ok cov' from hcov] at he
        simp only [bind_ok_ex] at he
        exact Except.noConfusion he
      · rintro (hc | hc)
        · exact absurd hc hnoL
        · exact absurd hc hnoG

theorem claim_C7_witness :
    (∃ e, build_coverage_index emptyDataIndex [] none (some [])
      annotationType entryType = .error e) ∧
    ¬ (∃ e, build_coverage_index emptyDataIndex [] (some []) (some [])
      annotationType entryType = .error e) := by
  have hWF : ProbeWF (coverCtxOf emptyDataIndex entryType) := by
    intro t id hmem _
    simp [coverCtxOf, emptyDataIndex] at hmem
  have hGok : ∀ G2, (some ([] : List Group)) = some G2 →
      GroupsOk emptyDataIndex entryType.mem G2 := by
    intro G2 h
    injection h with h2
    subst h2
    intro g hg _
    exact absurd hg (List.not_mem_nil g)
  constructor
  · exact (claim_C7 emptyDataIndex [] none (some []) annotationType entryType
      hWF (fun L2 h => Option.noConfusion h) hGok).mpr (Or.inl ⟨rfl, rfl, rfl⟩)
  · intro h
    have hLok : ∀ L2, (some ([] : List Link)) = some L2 →
        LinksOk emptyDataIndex entryType.mem L2 := by
      intro L2 h2
      injection h2 with h3
      subst h3
      intro l hl _
      exact absurd hl (List.not_mem_nil l)
    rcases (claim_C7 emptyDataIndex [] (some []) (some []) annotationType
        entryType hWF hLok hGok).mp h with hc | hc
    · exact Option.noConfusion hc.2.2
    · exact Option.noConfusion hc.2.2

end DataPackProof
